import Mathlib

/-!
# feedparser: the streaming RSS/Atom state machine of `NewFeed`

A shallow embedding of `feedparser.go`.

* The XML tokenizer is external: `NewFeed` is modelled on the sequence of tokens
  that `parser.Token()` yields, followed by how the stream ends (`io.EOF` or
  another error).
* `*FeedItem` is a pointer.  The items live in a heap (`State.heap`), a pointer
  is an index into it, `State.item` is the local variable `item` and
  `Feed.Items` is a list of pointers, so that writes through `item` are seen
  through every alias, as in Go.
* `strings.ToLower`, `strings.ToUpper`, `time.Parse` and `time.Now` are supplied
  by an environment `Env`; `time.Now` is read through a counter of the calls made
  so far.
* An index out of range is a run-time panic: `step` returns `none`.
-/

namespace Feedparser

/-! ## Data model -/

/-- A `time.Time`, as the nanoseconds elapsed since the zero time
(January 1, year 1, 00:00:00 UTC). -/
structure Time where
  ns : Int
  deriving DecidableEq, Repr

/-- The zero value of `time.Time`. -/
def Time.zero : Time := ⟨0⟩

instance : Inhabited Time := ⟨Time.zero⟩

/-- Type `Media`. -/
structure Media where
  Url : String := ""
  Size : String := ""
  deriving DecidableEq, Repr

instance : Inhabited Media := ⟨{}⟩

/-- Type `FeedItem`; the defaults are Go's zero values. -/
structure FeedItem where
  Id : String := ""
  Title : String := ""
  Description : String := ""
  Link : String := ""
  Image : String := ""
  ImageSource : String := ""
  When : Time := Time.zero
  Enclosure : String := ""
  Media : List Media := []
  deriving DecidableEq, Repr

instance : Inhabited FeedItem := ⟨{}⟩

/-- Type `Feed`; `Items` holds pointers (`[]*FeedItem`), indices into the heap. -/
structure Feed where
  Title : String := ""
  Subtitle : String := ""
  Link : String := ""
  Items : List Nat := []
  deriving DecidableEq, Repr

/-! ## Constants -/

def feedTitle : String := "title"
def atomNs : String := "http://www.w3.org/2005/atom"
def mediaNs : String := "http://search.yahoo.com/mrss/"
def ytNs : String := "http://gdata.youtube.com/schemas/2007"

def rssChannel : String := "channel"
def rssItem : String := "item"
def rssLink : String := "link"
def rssPubDate : String := "pubdate"
def rssDescription : String := "description"
def rssId : String := "guid"

def atomSubtitle : String := "subtitle"
def atomFeed : String := "feed"
def atomEntry : String := "entry"
def atomLink : String := "link"
def atomLinkHref : String := "href"
def atomUpdated : String := "updated"
def atomSummary : String := "summary"
def atomId : String := "id"

def mediaGroup : String := "group"
def mediaThumbnail : String := "thumbnail"

def attrUrl : String := "url"
def attrName : String := "name"

def levelFeed : Nat := 0
def levelPost : Nat := 1

/-! ## Tokens (`encoding/xml`) -/

/-- Type `xml.Name`. -/
structure Name where
  Space : String := ""
  Local : String := ""
  deriving DecidableEq, Repr

/-- Type `xml.Attr`. -/
structure Attr where
  Name : Name := {}
  Value : String := ""
  deriving DecidableEq, Repr

/-- Type `xml.StartElement`. -/
structure StartElement where
  Name : Name := {}
  Attr : List Attr := []
  deriving DecidableEq, Repr

/-- An `xml.Token`: the three kinds `NewFeed` switches on, and `Other` for the
kinds that no case matches (`xml.Comment`, `xml.ProcInst`, `xml.Directive`). -/
inductive Token where
  | StartElement (t : StartElement)
  | EndElement (name : Name)
  | CharData (text : String)
  | Other
  deriving DecidableEq, Repr

/-! ## Library functions -/

/-- The functions of `strings` and `time` that the embedding takes as given.
`now n` is what the `n`-th call of `time.Now()` returns, and `parse f v` is
`time.Parse(f, v)`, `none` standing for `err != nil`. -/
structure Env where
  toLower : String → String
  toUpper : String → String
  now : Nat → Time
  parse : String → String → Option Time

/-- Go's `unicode.IsSpace`. -/
def isSpace (c : Char) : Bool :=
  let n := c.toNat
  (9 ≤ n && n ≤ 13) || n == 32 || n == 0x85 || n == 0xA0 || n == 0x1680 ||
  (0x2000 ≤ n && n ≤ 0x200a) || n == 0x2028 || n == 0x2029 || n == 0x202f ||
  n == 0x205f || n == 0x3000

/-- Go's `strings.TrimSpace`. -/
def TrimSpace (s : String) : String :=
  ⟨((s.data.dropWhile isSpace).reverse.dropWhile isSpace).reverse⟩

/-- Go's `strings.HasPrefix(s, prefix)`. -/
def HasPrefix (s pre : String) : Bool := pre.data.isPrefixOf s.data

/-- Go's `strings.HasSuffix(s, suffix)`. -/
def HasSuffix (s suf : String) : Bool := suf.data.isSuffixOf s.data

/-! ## State of `NewFeed` -/

/-- The local variables of `NewFeed`, the heap of the `FeedItem`s allocated so
far, and the number of calls of `time.Now()` made so far.  The pointer `item` is
never nil and never dangling: `valid`. -/
structure State where
  ns : String
  tag : String
  atom : Bool
  level : Nat
  feed : Feed
  heap : List FeedItem
  item : Nat
  linkOk : Bool
  st : StartElement
  clock : Nat
  valid : item < heap.length
  deriving DecidableEq, Repr

/-- The state when the loop is entered: `feed := &Feed{}`, `item := &FeedItem{}`
with `item.Media = []Media{}`, the other variables at their zero values. -/
def initState : State :=
  { ns := "", tag := "", atom := false, level := 0, feed := {}, heap := [{}], item := 0,
    linkOk := false, st := {}, clock := 0, valid := Nat.zero_lt_one }

/-- The item `item` points to (`*item`). -/
def State.cur (s : State) : FeedItem := s.heap.getD s.item default

/-- A write through the pointer `item`. -/
def State.setCur (s : State) (it : FeedItem) : State :=
  { s with heap := s.heap.set s.item it
           valid := (List.length_set s.heap s.item it).symm ▸ s.valid }

/-- The item a pointer of `Feed.Items` points to. -/
def deref (heap : List FeedItem) (p : Nat) : FeedItem := heap.getD p default

/-- Function `parseTime`; the second component is the clock after the call. -/
def parseTime (env : Env) (clock : Nat) (f v : String) : Time × Nat :=
  match env.parse f v with
  | some t => if v = "" then (env.now clock, clock + 1) else (t, clock)
  | none => (env.now clock, clock + 1)

/-! ## The body of the loop -/

/-- The new item of the case `(!atom && tag == rssItem) || (atom && tag == atomEntry)`:
`&FeedItem{When: time.Now()}` with `item.Media = []Media{}`. -/
def newItem (env : Env) (clock : Nat) : FeedItem := { When := env.now clock, Media := [] }

/-- Case `tag == "enclosure"`: the first attribute whose lower-cased local name
is `"url"` is used, then the loop breaks. -/
def enclosureCase (env : Env) (s : State) (attrs : List Attr) : State :=
  match attrs.find? (fun a => env.toLower a.Name.Local == "url") with
  | some a =>
      s.setCur { s.cur with Enclosure := a.Value, Media := s.cur.Media ++ [{ Url := a.Value }] }
  | none => s

/-- The first statement of the attribute loop of the case `atom && tag == atomLink`:
an `href` attribute sets the link of the feed or of the item, by the level. -/
def linkHref (env : Env) (s : State) (a : Attr) : State :=
  if env.toLower a.Name.Local = atomLinkHref then
    if s.level = levelFeed then { s with feed := { s.feed with Link := a.Value } }
    else if s.level = levelPost then s.setCur { s.cur with Link := a.Value }
    else s
  else s

/-- The second statement of the loop: at `levelPost`, `rel="alternate"` sets `linkOk`. -/
def linkRel (env : Env) (s : State) (a : Attr) : State :=
  if s.level = levelPost ∧ env.toLower a.Name.Local = "rel" then
    if a.Value = "alternate" then { s with linkOk := true } else s
  else s

/-- One iteration of the attribute loop of the case `atom && tag == atomLink`. -/
def linkAttr (env : Env) (s : State) (a : Attr) : State :=
  linkRel env (linkHref env s a) a

/-- The attribute loop of the case `atom && tag == atomLink` (no `break`). -/
def linkLoop (env : Env) (s : State) (attrs : List Attr) : State :=
  attrs.foldl (linkAttr env) s

/-- Case `atom && tag == atomLink`. -/
def linkCase (env : Env) (s : State) (attrs : List Attr) : State :=
  if s.level = levelPost ∧ s.linkOk = true then s else linkLoop env s attrs

/-- Statement `item.Media[len(item.Media)-1].Size = v`: the index `len - 1` is
out of range when the slice is empty, and Go panics (`none`). -/
def setLastSize (m : List Media) (v : String) : Option (List Media) :=
  if m.length = 0 then none
  else some (m.set (m.length - 1) { m.getD (m.length - 1) default with Size := v })

/-- The loop over the attributes that looks for `"type"` with a value that
starts with `"video"`: the value of `ok` after it. -/
def contentOk (env : Env) (attrs : List Attr) : Bool :=
  attrs.any (fun a =>
    env.toLower a.Name.Local == "type" && HasPrefix (env.toLower a.Value) "video")

/-- The loop that appends `Media{Url: attr.Value}` for the first attribute whose
lower-cased local name is `"url"`. -/
def contentUrl (env : Env) (s : State) (attrs : List Attr) : State :=
  match attrs.find? (fun a => env.toLower a.Name.Local == "url") with
  | some a => s.setCur { s.cur with Media := s.cur.Media ++ [{ Url := a.Value }] }
  | none => s

/-- The loop that stores the value of the first attribute whose lower-cased
local name is `"filesize"` in `item.Media[len(item.Media)-1].Size`. -/
def contentSize (env : Env) (s : State) (attrs : List Attr) : Option State :=
  match attrs.find? (fun a => env.toLower a.Name.Local == "filesize") with
  | some a =>
      match setLastSize s.cur.Media a.Value with
      | some m => some (s.setCur { s.cur with Media := m })
      | none => none
  | none => some s

/-- Case `ns == mediaNs && tag == "content"`. -/
def contentCase (env : Env) (s : State) (attrs : List Attr) : Option State :=
  if s.level ≠ levelPost then some s
  else if contentOk env attrs = true then contentSize env (contentUrl env s attrs) attrs
  else some s

/-- One iteration of the attribute loop of the case
`ns == mediaNs && tag == mediaThumbnail`, on the pair `(url, name)`. -/
def thumbAttr (env : Env) (un : String × String) (attr : Attr) : String × String :=
  let ns := env.toLower attr.Name.Space
  let a := env.toLower attr.Name.Local
  if a = attrUrl then (attr.Value, un.2)
  else if ns = ytNs ∧ a = attrName then (un.1, attr.Value)
  else un

/-- The condition under which a thumbnail `(url, name)` replaces the image. -/
def thumbAccept (it : FeedItem) (url name : String) : Prop :=
  url ≠ "" ∧ (it.Image = "" ∨
    name = "sddefault" ∨
    (name = "hqdefault" ∧ it.ImageSource ≠ "sddefault") ∨
    (name = "mqdefault" ∧ it.ImageSource ≠ "sddefault" ∧ it.ImageSource ≠ "hqdefault") ∨
    (name = "default " ∧ it.ImageSource ≠ "mqdefault" ∧ it.ImageSource ≠ "sddefault" ∧
      it.ImageSource ≠ "hqdefault"))

instance (it : FeedItem) (url name : String) : Decidable (thumbAccept it url name) := by
  unfold thumbAccept; infer_instance

/-- Case `ns == mediaNs && tag == mediaThumbnail`. -/
def thumbnailCase (env : Env) (s : State) (attrs : List Attr) : State :=
  let un := attrs.foldl (thumbAttr env) ("", "")
  if thumbAccept s.cur un.1 un.2 then
    s.setCur { s.cur with Image := un.1, ImageSource := un.2 }
  else s

/-- The three assignments `ns = ...`, `tag = ...`, `st = t` that open the case
`xml.StartElement`. -/
def State.enter (env : Env) (s : State) (t : StartElement) : State :=
  { s with ns := env.toLower t.Name.Space, tag := env.toLower t.Name.Local, st := t }

/-- Case `(!atom && tag == rssItem) || (atom && tag == atomEntry)`: the new item
is allocated at the end of the heap and `item` points to it. -/
def State.alloc (env : Env) (s : State) : State :=
  { s with level := levelPost, linkOk := false,
           heap := s.heap ++ [newItem env s.clock], item := s.heap.length,
           clock := s.clock + 1
           valid := (List.length_append s.heap [newItem env s.clock]).symm ▸ Nat.lt_succ_self _ }

/-- Case `xml.StartElement` of the token switch. -/
def startElement (env : Env) (s0 : State) (t : StartElement) : Option State :=
  let s := s0.enter env t
  if s.tag = atomFeed then some { s with atom := true, level := levelFeed }
  else if s.tag = rssChannel then some { s with atom := false, level := levelFeed }
  else if (s.atom = false ∧ s.tag = rssItem) ∨ (s.atom = true ∧ s.tag = atomEntry) then
    some (s.alloc env)
  else if s.tag = "enclosure" then some (enclosureCase env s t.Attr)
  else if s.atom = true ∧ s.tag = atomLink then some (linkCase env s t.Attr)
  else if s.ns = mediaNs ∧ s.tag = "content" then contentCase env s t.Attr
  else if s.ns = mediaNs ∧ s.tag = mediaThumbnail then some (thumbnailCase env s t.Attr)
  else some s

/-- Case `xml.EndElement` of the token switch. -/
def endElement (env : Env) (s : State) (name : Name) : State :=
  let e := env.toLower name.Local
  if e = atomEntry ∨ e = rssItem then
    let s1 := if s.cur.Id = "" then s.setCur { s.cur with Id := s.cur.Link } else s
    { s1 with feed := { s1.feed with Items := s1.feed.Items ++ [s1.item] } }
  else s

/-- The layout `f` chosen in the case `atom && tag == atomUpdated`. -/
def updatedLayout (env : Env) (text : String) : String :=
  if HasSuffix (env.toUpper text) "Z" then "2006-01-02T15:04:05Z"
  else "2006-01-02T15:04:05-07:00"

/-- The layout `f` chosen in the case `!atom && tag == rssPubDate`. -/
def pubDateLayout (env : Env) (text : String) : String :=
  if HasSuffix (env.toUpper text) "T" then "Mon, 2 Jan 2006 15:04:05 MST"
  else "Mon, 2 Jan 2006 15:04:05 -0700"

/-- Case `atom && tag == atomUpdated`: `item.When = parseTime(f, text)`. -/
def updatedCase (env : Env) (s : State) (text : String) : State :=
  let r := parseTime env s.clock (updatedLayout env text) text
  { s.setCur { s.cur with When := r.1 } with clock := r.2 }

/-- Case `!atom && tag == rssPubDate`: `item.When = parseTime(f, text)`. -/
def pubDateCase (env : Env) (s : State) (text : String) : State :=
  let r := parseTime env s.clock (pubDateLayout env text) text
  { s.setCur { s.cur with When := r.1 } with clock := r.2 }

/-- Case `!atom && tag == rssLink` at `levelPost`. -/
def rssLinkCase (env : Env) (s : State) (text : String) : State :=
  if s.linkOk = false then
    let alt := s.st.Attr.any (fun a => env.toLower a.Name.Local == "rel" && a.Value == "alternate")
    { s.setCur { s.cur with Link := text } with linkOk := s.linkOk || alt }
  else s

/-- Case `levelFeed` of the switch on `level` for character data. -/
def feedText (s : State) (text : String) : State :=
  if s.tag = feedTitle then
    if s.feed.Title = "" then { s with feed := { s.feed with Title := text } } else s
  else if (s.atom = false ∧ s.tag = rssDescription) ∨ (s.atom = true ∧ s.tag = atomSubtitle) then
    { s with feed := { s.feed with Subtitle := text } }
  else if s.atom = false ∧ s.tag = rssLink then
    { s with feed := { s.feed with Link := text } }
  else s

/-- Case `levelPost` of the switch on `level` for character data. -/
def postText (env : Env) (s : State) (text : String) : State :=
  if (s.atom = false ∧ s.tag = rssId) ∨ (s.atom = true ∧ s.tag = atomId) then
    s.setCur { s.cur with Id := text }
  else if (s.ns = "" ∨ s.ns = atomNs) ∧ s.tag = feedTitle then
    s.setCur { s.cur with Title := text }
  else if (s.atom = false ∧ s.tag = rssDescription) ∨ (s.atom = true ∧ s.tag = atomSummary) then
    s.setCur { s.cur with Description := text }
  else if s.atom = false ∧ s.tag = rssLink then rssLinkCase env s text
  else if s.atom = true ∧ s.tag = atomUpdated then updatedCase env s text
  else if s.atom = false ∧ s.tag = rssPubDate then pubDateCase env s text
  else s

/-- Case `xml.CharData` of the token switch. -/
def charData (env : Env) (s : State) (text : String) : State :=
  if TrimSpace text = "" then s
  else if s.level = levelFeed then feedText s text
  else if s.level = levelPost then postText env s text
  else s

/-- One iteration of the loop of `NewFeed` on the token read; `none` is a
run-time panic. -/
def step (env : Env) (s : State) : Token → Option State
  | .StartElement t => startElement env s t
  | .EndElement name => some (endElement env s name)
  | .CharData text => some (charData env s text)
  | .Other => some s

/-- The loop of `NewFeed` over the tokens read before the stream ends. -/
def run (env : Env) : State → List Token → Option State
  | s, [] => some s
  | s, t :: ts =>
      match step env s t with
      | some s1 => run env s1 ts
      | none => none

/-- What a call of `NewFeed` does: it returns `(feed, nil)`, the feed being
given with the heap its `Items` point into; or it returns `(nil, err)`; or it
panics. -/
inductive Outcome where
  | feed (f : Feed) (heap : List FeedItem)
  | error (err : String)
  | panic
  deriving DecidableEq, Repr

/-- Function `NewFeed` on a token stream: `tokens` are the tokens that
`parser.Token()` yields one by one, and `last` is the error of the call after
them, `none` for `io.EOF`. -/
def NewFeed (env : Env) (tokens : List Token) (last : Option String) : Outcome :=
  match run env initState tokens with
  | none => .panic
  | some s =>
      match last with
      | none => .feed s.feed s.heap
      | some err => .error err

/-- The items of a returned feed, each pointer of `Items` followed. -/
def Outcome.items : Outcome → List FeedItem
  | .feed f heap => f.Items.map (deref heap)
  | _ => []

/-- The pointers in `Items` of a returned feed. -/
def Outcome.ptrs : Outcome → List Nat
  | .feed f _ => f.Items
  | _ => []

/-- The item a pointer points to when the feed is returned. -/
def Outcome.item (o : Outcome) (p : Nat) : FeedItem :=
  match o with
  | .feed _ heap => deref heap p
  | _ => default

/-! ## A concrete environment

`strings.ToLower` and `strings.ToUpper` agree with the ASCII case maps below on
ASCII text, which is all the concrete inputs of this file use. -/

/-- ASCII lower-casing. -/
def asciiLower (s : String) : String := ⟨s.data.map Char.toLower⟩

/-- ASCII upper-casing. -/
def asciiUpper (s : String) : String := ⟨s.data.map Char.toUpper⟩

/-- An environment for concrete runs: the clock reads `1, 2, 3, ...`
nanoseconds, and the date parser knows one date, Go's reference time in the
Zulu layout (`2006-01-02T15:04:05Z`, 63271811045 seconds after the zero time),
and fails on every other text. -/
def testEnv : Env where
  toLower := asciiLower
  toUpper := asciiUpper
  now := fun n => ⟨n + 1⟩
  parse := fun f v =>
    if f = "2006-01-02T15:04:05Z" ∧ v = "2006-01-02T15:04:05Z" then
      some ⟨63271811045000000000⟩
    else none

/-- An attribute without a namespace. -/
def attr (name value : String) : Attr := { Name := { Space := "", Local := name }, Value := value }

/-- An element-open token. -/
def startTok (space name : String) (attrs : List Attr) : Token :=
  .StartElement { Name := { Space := space, Local := name }, Attr := attrs }

/-- An element-close token. -/
def endTok (space name : String) : Token := .EndElement { Space := space, Local := name }

/-! ## Concrete documents -/

/-- The tokens of
`<rss xmlns:media="http://search.yahoo.com/mrss/"><channel><item>`
`<media:content type="video/mp4" fileSize="1024"/></item></channel></rss>`. -/
def docVideoNoUrl : List Token :=
  [ startTok "" "rss" [{ Name := { Space := "xmlns", Local := "media" }, Value := mediaNs }],
    startTok "" "channel" [],
    startTok "" "item" [],
    startTok mediaNs "content" [attr "type" "video/mp4", attr "fileSize" "1024"],
    endTok mediaNs "content",
    endTok "" "item",
    endTok "" "channel",
    endTok "" "rss" ]

/-- The tokens of
`<rss><channel><item><title>T</title></item><title>Late</title></channel></rss>`. -/
def docRssLateTitle : List Token :=
  [ startTok "" "rss" [], startTok "" "channel" [], startTok "" "item" [],
    startTok "" "title" [], .CharData "T", endTok "" "title", endTok "" "item",
    startTok "" "title" [], .CharData "Late", endTok "" "title",
    endTok "" "channel", endTok "" "rss" ]

/-- The tokens of `<rss><channel><item><entry></entry></item></channel></rss>`. -/
def docRssNested : List Token :=
  [ startTok "" "rss" [], startTok "" "channel" [], startTok "" "item" [],
    startTok "" "entry" [], endTok "" "entry", endTok "" "item",
    endTok "" "channel", endTok "" "rss" ]

/-- The tokens of
`<rss><channel><item><link>a</link></item><item><link>b</link></item></channel></rss>`. -/
def docRssTwoItems : List Token :=
  [ startTok "" "rss" [], startTok "" "channel" [],
    startTok "" "item" [], startTok "" "link" [], .CharData "a", endTok "" "link",
    endTok "" "item", .CharData "\n",
    startTok "" "item" [], startTok "" "link" [], .CharData "b", endTok "" "link",
    endTok "" "item", endTok "" "channel", endTok "" "rss" ]

/-- The tokens of
`<rss><channel><title>First</title><title>Second</title></channel></rss>`. -/
def docTwoTitles : List Token :=
  [ startTok "" "rss" [], startTok "" "channel" [],
    startTok "" "title" [], .CharData "First", endTok "" "title",
    startTok "" "title" [], .CharData "Second", endTok "" "title",
    endTok "" "channel", endTok "" "rss" ]

/-- The tokens of
`<rss xmlns:media="http://search.yahoo.com/mrss/"><channel><item>`
`<enclosure url="http://x/a.mp3"/><media:content type="video/mp4" fileSize="1024"/>`
`</item></channel></rss>`. -/
def docEnclosureThenSize : List Token :=
  [ startTok "" "rss" [{ Name := { Space := "xmlns", Local := "media" }, Value := mediaNs }],
    startTok "" "channel" [],
    startTok "" "item" [],
    startTok "" "enclosure" [attr "url" "http://x/a.mp3"],
    endTok "" "enclosure",
    startTok mediaNs "content" [attr "type" "video/mp4", attr "fileSize" "1024"],
    endTok mediaNs "content",
    endTok "" "item",
    endTok "" "channel",
    endTok "" "rss" ]

/-- A media-namespace thumbnail element-open token with a `url` attribute and a
`name` attribute in the YouTube namespace. -/
def thumbTok (url name : String) : Token :=
  startTok mediaNs "thumbnail"
    [attr "url" url, { Name := { Space := ytNs, Local := "name" }, Value := name }]

/-- The tokens of an Atom entry with two thumbnails named "sddefault":
`<feed><entry><media:thumbnail url="http://x/1.jpg" yt:name="sddefault"/>`
`<media:thumbnail url="http://x/2.jpg" yt:name="sddefault"/></entry></feed>`. -/
def docTwoSd : List Token :=
  [ startTok atomNs "feed" [], startTok atomNs "entry" [],
    thumbTok "http://x/1.jpg" "sddefault", endTok mediaNs "thumbnail",
    thumbTok "http://x/2.jpg" "sddefault", endTok mediaNs "thumbnail",
    endTok atomNs "entry", endTok atomNs "feed" ]

/-- An element-close event whose lower-cased local name is "entry" or "item". -/
def isItemClose (env : Env) : Token → Bool
  | .EndElement name => env.toLower name.Local == atomEntry || env.toLower name.Local == rssItem
  | _ => false

/-- An element-open event that allocates a new item in state `s`: its lower-cased
local name is "item" while the dialect is RSS, or "entry" while it is Atom. -/
def isItemOpen (env : Env) (s : State) : Token → Bool
  | .StartElement t =>
      (!s.atom && env.toLower t.Name.Local == rssItem) ||
      (s.atom && env.toLower t.Name.Local == atomEntry)
  | _ => false

/-- An element-open event whose lower-cased local name is "item" or "entry",
whatever the dialect. -/
def isItemOpenName (env : Env) : Token → Bool
  | .StartElement t =>
      env.toLower t.Name.Local == rssItem || env.toLower t.Name.Local == atomEntry
  | _ => false

/-- An element-open or element-close event of a link element. -/
def isLinkElement (env : Env) : Token → Bool
  | .StartElement t => env.toLower t.Name.Local == atomLink
  | .EndElement name => env.toLower name.Local == atomLink
  | _ => false

/-- The text of the token when it is a non-whitespace character-data event that
occurs at `levelFeed` while the current tag is "title". -/
def feedTitleText (s : State) : Token → Option String
  | .CharData text =>
      if TrimSpace text ≠ "" ∧ s.level = levelFeed ∧ s.tag = feedTitle then some text else none
  | _ => none

/-- The text of the first token of the run from `s` that is a non-whitespace
character-data event at `levelFeed` while the current tag is "title". -/
def firstFeedTitle (env : Env) : State → List Token → Option String
  | _, [] => none
  | s, t :: ts =>
      match feedTitleText s t with
      | some text => some text
      | none =>
          match step env s t with
          | some s1 => firstFeedTitle env s1 ts
          | none => none

/-- The attributes of a link element with `rel="alternate"` and href `h`, in
either order: `a` is the `rel` attribute and `b` the `href` attribute. -/
def isAlternateHref (env : Env) (attrs : List Attr) (h : String) : Prop :=
  ∃ a b, env.toLower a.Name.Local = "rel" ∧ a.Value = "alternate" ∧
    env.toLower b.Name.Local = atomLinkHref ∧ b.Value = h ∧
    (attrs = [a, b] ∨ attrs = [b, a])

/-- The rank of a thumbnail name: "sddefault" 3, "hqdefault" 2, "mqdefault" 1,
every other name 0. -/
def rank (name : String) : Nat :=
  if name = "sddefault" then 3
  else if name = "hqdefault" then 2
  else if name = "mqdefault" then 1
  else 0

/-- The pair `(url, name)` that the attribute loop of the thumbnail case reads
from the attributes of the element. -/
def thumbOf (env : Env) (attrs : List Attr) : String × String :=
  attrs.foldl (thumbAttr env) ("", "")

/-- The element-open event of a media-namespace "thumbnail" element, or the
element-close event of a "thumbnail" element. -/
def isThumbnailEvent (env : Env) : Token → Bool
  | .StartElement t =>
      env.toLower t.Name.Space == mediaNs && env.toLower t.Name.Local == mediaThumbnail
  | .EndElement name => env.toLower name.Local == mediaThumbnail
  | _ => false

/-- The thumbnail priority rule on the pair `(image, imageSource)` of an item and
a candidate `(url, name)`: the candidate replaces the pair when its url is not
empty and no image is set yet, or the name is "sddefault", or the name is
"hqdefault" and the image did not come from "sddefault", or the name is
"mqdefault" and the image did not come from "sddefault" or "hqdefault", or the
name is "default " and the image did not come from "mqdefault", "sddefault" or
"hqdefault". -/
def thumbPick (cur cand : String × String) : String × String :=
  if cand.1 ≠ "" ∧ (cur.1 = "" ∨
      cand.2 = "sddefault" ∨
      (cand.2 = "hqdefault" ∧ cur.2 ≠ "sddefault") ∨
      (cand.2 = "mqdefault" ∧ cur.2 ≠ "sddefault" ∧ cur.2 ≠ "hqdefault") ∨
      (cand.2 = "default " ∧ cur.2 ≠ "mqdefault" ∧ cur.2 ≠ "sddefault" ∧
        cur.2 ≠ "hqdefault")) then cand
  else cur

/-- The names the priority rule knows: a later candidate of the same name
replaces an earlier one. -/
def isRankedName (name : String) : Prop :=
  name = "sddefault" ∨ name = "hqdefault" ∨ name = "mqdefault" ∨ name = "default "

/-- The attribute `a` is the first attribute of `attrs` whose lower-cased local
name is "url". -/
def isFirstUrl (env : Env) (attrs : List Attr) (a : Attr) : Prop :=
  ∃ pre post, attrs = pre ++ a :: post ∧
    (∀ b ∈ pre, env.toLower b.Name.Local ≠ "url") ∧ env.toLower a.Name.Local = "url"

/-- The media list `new` has the list `old` as a prefix up to sizes: its length
is that of `old` or one more, every entry of `old` keeps its `Url`, and every
entry of `old` except possibly the last keeps its `Size`. -/
def MediaExt (old new : List Media) : Prop :=
  (new.length = old.length ∨ new.length = old.length + 1) ∧
  ∀ i, i < old.length →
    (new.getD i default).Url = (old.getD i default).Url ∧
    (i + 1 < old.length → (new.getD i default).Size = (old.getD i default).Size)

/-- What every step other than the allocation of a new item keeps: the pointer
`item`, the size of the heap, and every heap cell other than `*item`. -/
structure Frame (s s' : State) : Prop where
  item : s'.item = s.item
  len : s'.heap.length = s.heap.length
  other : ∀ p, p ≠ s.item → s'.heap.getD p default = s.heap.getD p default

/-! ## Frame lemmas -/

@[simp] theorem setCur_feed (s : State) (it : FeedItem) : (s.setCur it).feed = s.feed := rfl
@[simp] theorem setCur_item (s : State) (it : FeedItem) : (s.setCur it).item = s.item := rfl
@[simp] theorem setCur_level (s : State) (it : FeedItem) : (s.setCur it).level = s.level := rfl
@[simp] theorem setCur_linkOk (s : State) (it : FeedItem) : (s.setCur it).linkOk = s.linkOk := rfl
@[simp] theorem setCur_atom (s : State) (it : FeedItem) : (s.setCur it).atom = s.atom := rfl
@[simp] theorem setCur_clock (s : State) (it : FeedItem) : (s.setCur it).clock = s.clock := rfl
@[simp] theorem setCur_tag (s : State) (it : FeedItem) : (s.setCur it).tag = s.tag := rfl
@[simp] theorem setCur_ns (s : State) (it : FeedItem) : (s.setCur it).ns = s.ns := rfl
@[simp] theorem setCur_st (s : State) (it : FeedItem) : (s.setCur it).st = s.st := rfl
@[simp] theorem setCur_heap (s : State) (it : FeedItem) :
    (s.setCur it).heap = s.heap.set s.item it := rfl

theorem Frame.refl (s : State) : Frame s s := ⟨rfl, rfl, fun _ _ => rfl⟩

theorem Frame.trans {a b c : State} (h1 : Frame a b) (h2 : Frame b c) : Frame a c :=
  ⟨h2.item.trans h1.item, h2.len.trans h1.len,
   fun p hp => (h2.other p (by rw [h1.item]; exact hp)).trans (h1.other p hp)⟩

theorem getD_set_ne (l : List FeedItem) (i p : Nat) (it : FeedItem) (h : p ≠ i) :
    (l.set i it).getD p default = l.getD p default := by
  rw [List.getD_eq_getElem?_getD, List.getD_eq_getElem?_getD, List.getElem?_set_ne (Ne.symm h)]

theorem Frame.setCur (s : State) (it : FeedItem) : Frame s (s.setCur it) :=
  ⟨rfl, by simp, fun p hp => getD_set_ne _ _ _ _ hp⟩

/-- A change of fields other than `heap` and `item` is within the frame. -/
theorem Frame.of_eq {s s' : State} (hi : s'.item = s.item) (hh : s'.heap = s.heap) :
    Frame s s' := ⟨hi, by rw [hh], fun _ _ => by rw [hh]⟩

theorem enclosureCase_frame (env : Env) (s : State) (attrs : List Attr) :
    Frame s (enclosureCase env s attrs) := by
  unfold enclosureCase
  split
  · exact Frame.setCur _ _
  · exact Frame.refl _

theorem linkHref_frame (env : Env) (s : State) (a : Attr) : Frame s (linkHref env s a) := by
  unfold linkHref
  split_ifs
  · exact Frame.of_eq rfl rfl
  · exact Frame.setCur _ _
  · exact Frame.refl _
  · exact Frame.refl _

theorem linkRel_frame (env : Env) (s : State) (a : Attr) : Frame s (linkRel env s a) := by
  unfold linkRel
  split_ifs
  all_goals exact Frame.of_eq rfl rfl

theorem linkAttr_frame (env : Env) (s : State) (a : Attr) : Frame s (linkAttr env s a) :=
  (linkHref_frame env s a).trans (linkRel_frame env _ a)

theorem linkLoop_frame (env : Env) (attrs : List Attr) (s : State) :
    Frame s (linkLoop env s attrs) := by
  unfold linkLoop
  induction attrs generalizing s with
  | nil => exact Frame.refl _
  | cons a as ih => exact (linkAttr_frame env s a).trans (ih _)

theorem linkCase_frame (env : Env) (s : State) (attrs : List Attr) :
    Frame s (linkCase env s attrs) := by
  unfold linkCase
  split
  · exact Frame.refl _
  · exact linkLoop_frame env attrs s

theorem contentUrl_frame (env : Env) (s : State) (attrs : List Attr) :
    Frame s (contentUrl env s attrs) := by
  unfold contentUrl
  split
  · exact Frame.setCur _ _
  · exact Frame.refl _

theorem contentSize_frame (env : Env) (s s' : State) (attrs : List Attr)
    (h : contentSize env s attrs = some s') : Frame s s' := by
  unfold contentSize at h
  split at h
  · split at h
    · cases h; exact Frame.setCur _ _
    · cases h
  · cases h; exact Frame.refl _

theorem contentCase_frame (env : Env) (s s' : State) (attrs : List Attr)
    (h : contentCase env s attrs = some s') : Frame s s' := by
  unfold contentCase at h
  split_ifs at h
  · cases h; exact Frame.refl _
  · exact (contentUrl_frame env s attrs).trans (contentSize_frame env _ _ _ h)
  · cases h; exact Frame.refl _

theorem thumbnailCase_frame (env : Env) (s : State) (attrs : List Attr) :
    Frame s (thumbnailCase env s attrs) := by
  unfold thumbnailCase
  simp only []
  split
  · exact Frame.setCur _ _
  · exact Frame.refl _

theorem endElement_frame (env : Env) (s : State) (name : Name) :
    Frame s (endElement env s name) := by
  unfold endElement
  simp only []
  split_ifs
  all_goals first
    | exact Frame.refl _
    | exact Frame.of_eq rfl rfl
    | exact (Frame.setCur _ _).trans (Frame.of_eq rfl rfl)

theorem rssLinkCase_frame (env : Env) (s : State) (text : String) :
    Frame s (rssLinkCase env s text) := by
  unfold rssLinkCase
  split
  · exact (Frame.setCur _ _).trans (Frame.of_eq rfl rfl)
  · exact Frame.refl _

theorem updatedCase_frame (env : Env) (s : State) (text : String) :
    Frame s (updatedCase env s text) :=
  (Frame.setCur _ _).trans (Frame.of_eq rfl rfl)

theorem pubDateCase_frame (env : Env) (s : State) (text : String) :
    Frame s (pubDateCase env s text) :=
  (Frame.setCur _ _).trans (Frame.of_eq rfl rfl)

theorem feedText_frame (s : State) (text : String) : Frame s (feedText s text) := by
  unfold feedText
  split_ifs
  all_goals exact Frame.of_eq rfl rfl

theorem postText_frame (env : Env) (s : State) (text : String) :
    Frame s (postText env s text) := by
  unfold postText
  split_ifs
  · exact Frame.setCur _ _
  · exact Frame.setCur _ _
  · exact Frame.setCur _ _
  · exact rssLinkCase_frame _ _ _
  · exact updatedCase_frame _ _ _
  · exact pubDateCase_frame _ _ _
  · exact Frame.refl _

theorem charData_frame (env : Env) (s : State) (text : String) :
    Frame s (charData env s text) := by
  unfold charData
  split_ifs
  · exact Frame.refl _
  · exact feedText_frame _ _
  · exact postText_frame _ _ _
  · exact Frame.refl _

/-! ## One step -/

@[simp] theorem enter_atom (env : Env) (s : State) (t : StartElement) :
    (s.enter env t).atom = s.atom := rfl
@[simp] theorem enter_tag (env : Env) (s : State) (t : StartElement) :
    (s.enter env t).tag = env.toLower t.Name.Local := rfl
@[simp] theorem enter_ns (env : Env) (s : State) (t : StartElement) :
    (s.enter env t).ns = env.toLower t.Name.Space := rfl

theorem startElement_open (env : Env) (s : State) (t : StartElement)
    (h : isItemOpen env s (.StartElement t) = true) :
    startElement env s t = some ((s.enter env t).alloc env) := by
  have h1 : (s.atom = false ∧ env.toLower t.Name.Local = rssItem) ∨
      (s.atom = true ∧ env.toLower t.Name.Local = atomEntry) := by
    simpa [isItemOpen] using h
  have h2 : env.toLower t.Name.Local ≠ atomFeed := by
    rcases h1 with ⟨_, h1⟩ | ⟨_, h1⟩ <;> rw [h1] <;> decide
  have h3 : env.toLower t.Name.Local ≠ rssChannel := by
    rcases h1 with ⟨_, h1⟩ | ⟨_, h1⟩ <;> rw [h1] <;> decide
  unfold startElement
  simp only [enter_tag, enter_atom, h2, h3, if_false, h1, if_true]

theorem startElement_frame (env : Env) (s s' : State) (t : StartElement)
    (ho : isItemOpen env s (.StartElement t) = false)
    (h : startElement env s t = some s') : Frame s s' := by
  have h1 : ¬ ((s.atom = false ∧ env.toLower t.Name.Local = rssItem) ∨
      (s.atom = true ∧ env.toLower t.Name.Local = atomEntry)) := by
    intro hc
    have : isItemOpen env s (.StartElement t) = true := by simpa [isItemOpen] using hc
    rw [ho] at this; cases this
  have he : Frame s (s.enter env t) := Frame.of_eq rfl rfl
  unfold startElement at h
  simp only [enter_tag, enter_atom, h1, if_false] at h
  split_ifs at h
  · cases h; exact Frame.of_eq rfl rfl
  · cases h; exact Frame.of_eq rfl rfl
  · cases h; exact he.trans (enclosureCase_frame env _ _)
  · cases h; exact he.trans (linkCase_frame env _ _)
  · exact he.trans (contentCase_frame env _ _ _ h)
  · cases h; exact he.trans (thumbnailCase_frame env _ _)
  · cases h; exact he

/-- A step that allocates leads to `State.opened`; every other step is within
the frame. -/
theorem step_open (env : Env) (s : State) (t : Token) (h : isItemOpen env s t = true) :
    ∃ e, t = .StartElement e ∧ step env s t = some ((s.enter env e).alloc env) := by
  cases t with
  | StartElement e => exact ⟨e, rfl, startElement_open env s e h⟩
  | EndElement n => simp [isItemOpen] at h
  | CharData text => simp [isItemOpen] at h
  | Other => simp [isItemOpen] at h

theorem step_frame (env : Env) (s s' : State) (t : Token)
    (ho : isItemOpen env s t = false) (h : step env s t = some s') : Frame s s' := by
  cases t with
  | StartElement e => exact startElement_frame env s s' e ho h
  | EndElement n => simp only [step, Option.some.injEq] at h; subst h; exact endElement_frame _ _ _
  | CharData text => simp only [step, Option.some.injEq] at h; subst h; exact charData_frame _ _ _
  | Other => simp only [step, Option.some.injEq] at h; subst h; exact Frame.refl _

/-! ## What a step does to `Feed.Items` and `Feed.Title` -/

theorem enclosureCase_feed (env : Env) (s : State) (attrs : List Attr) :
    (enclosureCase env s attrs).feed = s.feed := by
  unfold enclosureCase; split <;> rfl

theorem thumbnailCase_feed (env : Env) (s : State) (attrs : List Attr) :
    (thumbnailCase env s attrs).feed = s.feed := by
  unfold thumbnailCase; simp only []; split <;> rfl

theorem contentUrl_feed (env : Env) (s : State) (attrs : List Attr) :
    (contentUrl env s attrs).feed = s.feed := by
  unfold contentUrl; split <;> rfl

theorem contentSize_feed (env : Env) (s s' : State) (attrs : List Attr)
    (h : contentSize env s attrs = some s') : s'.feed = s.feed := by
  unfold contentSize at h
  split at h
  · split at h
    · cases h; rfl
    · cases h
  · cases h; rfl

theorem contentCase_feed (env : Env) (s s' : State) (attrs : List Attr)
    (h : contentCase env s attrs = some s') : s'.feed = s.feed := by
  unfold contentCase at h
  split_ifs at h
  · cases h; rfl
  · exact (contentSize_feed env _ _ _ h).trans (contentUrl_feed env s attrs)
  · cases h; rfl

theorem linkRel_feed (env : Env) (s : State) (a : Attr) : (linkRel env s a).feed = s.feed := by
  unfold linkRel
  split_ifs <;> rfl

theorem linkAttr_feed (env : Env) (s : State) (a : Attr) :
    (linkAttr env s a).feed.Items = s.feed.Items ∧ (linkAttr env s a).feed.Title = s.feed.Title := by
  unfold linkAttr
  rw [linkRel_feed]
  unfold linkHref
  split_ifs <;> exact ⟨rfl, rfl⟩

theorem linkLoop_feed (env : Env) (attrs : List Attr) (s : State) :
    (linkLoop env s attrs).feed.Items = s.feed.Items ∧
    (linkLoop env s attrs).feed.Title = s.feed.Title := by
  unfold linkLoop
  induction attrs generalizing s with
  | nil => exact ⟨rfl, rfl⟩
  | cons a as ih =>
      simp only [List.foldl_cons]
      exact ⟨(ih _).1.trans (linkAttr_feed env s a).1, (ih _).2.trans (linkAttr_feed env s a).2⟩

theorem linkCase_feed (env : Env) (s : State) (attrs : List Attr) :
    (linkCase env s attrs).feed.Items = s.feed.Items ∧
    (linkCase env s attrs).feed.Title = s.feed.Title := by
  unfold linkCase
  split
  · exact ⟨rfl, rfl⟩
  · exact linkLoop_feed env attrs s

theorem startElement_feed (env : Env) (s s' : State) (t : StartElement)
    (h : startElement env s t = some s') :
    s'.feed.Items = s.feed.Items ∧ s'.feed.Title = s.feed.Title := by
  unfold startElement at h
  simp only [] at h
  split_ifs at h
  · cases h; exact ⟨rfl, rfl⟩
  · cases h; exact ⟨rfl, rfl⟩
  · cases h; exact ⟨rfl, rfl⟩
  · cases h; rw [enclosureCase_feed]; exact ⟨rfl, rfl⟩
  · cases h; exact linkCase_feed env _ _
  · rw [contentCase_feed env _ _ _ h]; exact ⟨rfl, rfl⟩
  · cases h; rw [thumbnailCase_feed]; exact ⟨rfl, rfl⟩
  · cases h; exact ⟨rfl, rfl⟩

theorem rssLinkCase_feed (env : Env) (s : State) (text : String) :
    (rssLinkCase env s text).feed = s.feed := by
  unfold rssLinkCase; split <;> rfl

theorem feedText_Items (s : State) (text : String) :
    (feedText s text).feed.Items = s.feed.Items := by
  unfold feedText
  split_ifs <;> rfl

theorem postText_feed (env : Env) (s : State) (text : String) :
    (postText env s text).feed = s.feed := by
  unfold postText
  split_ifs
  · rfl
  · rfl
  · rfl
  · exact rssLinkCase_feed _ _ _
  · rfl
  · rfl
  · rfl

theorem charData_Items (env : Env) (s : State) (text : String) :
    (charData env s text).feed.Items = s.feed.Items := by
  unfold charData
  split_ifs
  · rfl
  · exact feedText_Items _ _
  · rw [postText_feed]
  · rfl

theorem endElement_Items (env : Env) (s : State) (name : Name) :
    (endElement env s name).feed.Items =
      s.feed.Items ++ (if isItemClose env (.EndElement name) = true then [s.item] else []) := by
  unfold endElement isItemClose
  by_cases h : env.toLower name.Local = atomEntry ∨ env.toLower name.Local = rssItem
  · simp only [h, if_true, Bool.or_eq_true, beq_iff_eq]
    split_ifs <;> rfl
  · simp only [h, if_false, Bool.or_eq_true, beq_iff_eq, List.append_nil]

/-- Every step appends the current item to `Feed.Items` when the token is an
entry/item close, and leaves `Feed.Items` alone otherwise. -/
theorem step_Items (env : Env) (s s' : State) (t : Token) (h : step env s t = some s') :
    s'.feed.Items = s.feed.Items ++ (if isItemClose env t = true then [s.item] else []) := by
  cases t with
  | StartElement e =>
      simp only [step] at h
      simp [isItemClose, (startElement_feed env s s' e h).1]
  | EndElement n => simp only [step, Option.some.injEq] at h; subst h; exact endElement_Items _ _ _
  | CharData text =>
      simp only [step, Option.some.injEq] at h; subst h
      simp [isItemClose, charData_Items]
  | Other => simp only [step, Option.some.injEq] at h; subst h; simp [isItemClose]

/-- Over a run, `Feed.Items` grows by one pointer for each entry/item close. -/
theorem run_Items_length (env : Env) (ts : List Token) (s s' : State)
    (h : run env s ts = some s') :
    s'.feed.Items.length = s.feed.Items.length + (ts.filter (isItemClose env)).length := by
  induction ts generalizing s with
  | nil => simp only [run, Option.some.injEq] at h; subst h; simp
  | cons t ts ih =>
      simp only [run] at h
      split at h
      · rename_i s1 hs
        rw [ih s1 h, step_Items env s s1 t hs]
        by_cases hc : isItemClose env t = true
        · simp [hc]; omega
        · simp [hc]
      · cases h

/-! ## The current item -/

theorem cur_setCur (s : State) (it : FeedItem) : (s.setCur it).cur = it := by
  show (s.heap.set s.item it).getD s.item default = it
  rw [List.getD_eq_getElem?_getD, List.getElem?_set_self s.valid]
  rfl

theorem getD_set_self (l : List FeedItem) (i : Nat) (it : FeedItem) (h : i < l.length) :
    (l.set i it).getD i default = it := by
  rw [List.getD_eq_getElem?_getD, List.getElem?_set_self h]
  rfl

theorem cur_congr {s s' : State} (hi : s'.item = s.item) (hh : s'.heap = s.heap) :
    s'.cur = s.cur := by
  unfold State.cur; rw [hi, hh]

theorem enclosureCase_When (env : Env) (s : State) (attrs : List Attr) :
    (enclosureCase env s attrs).cur.When = s.cur.When := by
  unfold enclosureCase; split
  · rw [cur_setCur]
  · rfl

theorem linkRel_cur (env : Env) (s : State) (a : Attr) : (linkRel env s a).cur = s.cur := by
  unfold linkRel
  split_ifs
  all_goals exact cur_congr rfl rfl

theorem linkHref_cur (env : Env) (s : State) (a : Attr) :
    (linkHref env s a).cur =
      if env.toLower a.Name.Local = atomLinkHref ∧ s.level = levelPost then
        { s.cur with Link := a.Value }
      else s.cur := by
  unfold linkHref
  by_cases h1 : env.toLower a.Name.Local = atomLinkHref
  · by_cases h2 : s.level = levelPost
    · have h3 : ¬ s.level = levelFeed := by rw [h2]; decide
      rw [if_pos h1, if_neg h3, if_pos h2, if_pos ⟨h1, h2⟩, cur_setCur]
    · have h4 : ¬ (env.toLower a.Name.Local = atomLinkHref ∧ s.level = levelPost) :=
        fun h => h2 h.2
      rw [if_pos h1, if_neg h2, if_neg h4]
      split_ifs
      · exact cur_congr rfl rfl
      · rfl
  · have h4 : ¬ (env.toLower a.Name.Local = atomLinkHref ∧ s.level = levelPost) :=
      fun h => h1 h.1
    rw [if_neg h1, if_neg h4]

theorem linkAttr_cur (env : Env) (s : State) (a : Attr) :
    (linkAttr env s a).cur =
      if env.toLower a.Name.Local = atomLinkHref ∧ s.level = levelPost then
        { s.cur with Link := a.Value }
      else s.cur := by
  unfold linkAttr
  rw [linkRel_cur, linkHref_cur]

theorem linkAttr_When (env : Env) (s : State) (a : Attr) :
    (linkAttr env s a).cur.When = s.cur.When := by
  rw [linkAttr_cur]
  split <;> rfl

theorem linkLoop_When (env : Env) (attrs : List Attr) (s : State) :
    (linkLoop env s attrs).cur.When = s.cur.When := by
  unfold linkLoop
  induction attrs generalizing s with
  | nil => rfl
  | cons a as ih => simp only [List.foldl_cons]; rw [ih, linkAttr_When]

theorem linkCase_When (env : Env) (s : State) (attrs : List Attr) :
    (linkCase env s attrs).cur.When = s.cur.When := by
  unfold linkCase; split
  · rfl
  · exact linkLoop_When env attrs s

theorem contentUrl_When (env : Env) (s : State) (attrs : List Attr) :
    (contentUrl env s attrs).cur.When = s.cur.When := by
  unfold contentUrl; split
  · rw [cur_setCur]
  · rfl

theorem contentSize_When (env : Env) (s s' : State) (attrs : List Attr)
    (h : contentSize env s attrs = some s') : s'.cur.When = s.cur.When := by
  unfold contentSize at h
  split at h
  · split at h
    · cases h; rw [cur_setCur]
    · cases h
  · cases h; rfl

theorem contentCase_When (env : Env) (s s' : State) (attrs : List Attr)
    (h : contentCase env s attrs = some s') : s'.cur.When = s.cur.When := by
  unfold contentCase at h
  split_ifs at h
  · cases h; rfl
  · exact (contentSize_When env _ _ _ h).trans (contentUrl_When env s attrs)
  · cases h; rfl

theorem thumbnailCase_When (env : Env) (s : State) (attrs : List Attr) :
    (thumbnailCase env s attrs).cur.When = s.cur.When := by
  unfold thumbnailCase; simp only []; split
  · rw [cur_setCur]
  · rfl

theorem endElement_When (env : Env) (s : State) (name : Name) :
    (endElement env s name).cur.When = s.cur.When := by
  unfold endElement
  simp only []
  split_ifs
  all_goals first
    | rfl
    | exact congrArg FeedItem.When (cur_setCur _ _)
    | simp [State.cur, State.setCur, List.getElem?_set_self s.valid]

theorem startElement_When (env : Env) (s s' : State) (t : StartElement)
    (ho : isItemOpen env s (.StartElement t) = false)
    (h : startElement env s t = some s') : s'.cur.When = s.cur.When := by
  have h1 : ¬ ((s.atom = false ∧ env.toLower t.Name.Local = rssItem) ∨
      (s.atom = true ∧ env.toLower t.Name.Local = atomEntry)) := by
    intro hc
    have : isItemOpen env s (.StartElement t) = true := by simpa [isItemOpen] using hc
    rw [ho] at this; cases this
  unfold startElement at h
  simp only [enter_tag, enter_atom, h1, if_false] at h
  split_ifs at h
  · cases h; rfl
  · cases h; rfl
  · cases h; exact enclosureCase_When env _ _
  · cases h; exact linkCase_When env _ _
  · have h2 := contentCase_When env _ _ _ h
    exact h2
  · cases h; exact thumbnailCase_When env _ _
  · cases h; rfl

theorem feedText_cur (s : State) (text : String) : (feedText s text).cur = s.cur := by
  unfold feedText
  split_ifs
  all_goals exact cur_congr rfl rfl

theorem rssLinkCase_When (env : Env) (s : State) (text : String) :
    (rssLinkCase env s text).cur.When = s.cur.When := by
  unfold rssLinkCase; split
  · simp only [State.cur, State.setCur, getD_set_self _ _ _ s.valid]
  · rfl

/-- A character-data token leaves `When` alone or stores a result of `parseTime`. -/
theorem postText_When (env : Env) (s : State) (text : String) :
    (postText env s text).cur.When = s.cur.When ∨
    ∃ f, (postText env s text).cur.When = (parseTime env s.clock f text).1 := by
  unfold postText
  split_ifs
  · left; rw [cur_setCur]
  · left; rw [cur_setCur]
  · left; rw [cur_setCur]
  · exact Or.inl (rssLinkCase_When _ _ _)
  · right
    refine ⟨updatedLayout env text, ?_⟩
    simp only [updatedCase, State.cur, State.setCur, getD_set_self _ _ _ s.valid]
  · right
    refine ⟨pubDateLayout env text, ?_⟩
    simp only [pubDateCase, State.cur, State.setCur, getD_set_self _ _ _ s.valid]
  · exact Or.inl rfl

theorem charData_When (env : Env) (s : State) (text : String) :
    (charData env s text).cur.When = s.cur.When ∨
    ∃ f, (charData env s text).cur.When = (parseTime env s.clock f text).1 := by
  unfold charData
  split_ifs
  · exact Or.inl rfl
  · exact Or.inl (congrArg FeedItem.When (feedText_cur _ _))
  · exact postText_When _ _ _
  · exact Or.inl rfl

theorem step_When (env : Env) (s s' : State) (t : Token)
    (ho : isItemOpen env s t = false) (h : step env s t = some s') :
    s'.cur.When = s.cur.When ∨ ∃ f v, s'.cur.When = (parseTime env s.clock f v).1 := by
  cases t with
  | StartElement e => exact Or.inl (startElement_When env s s' e ho h)
  | EndElement n =>
      simp only [step, Option.some.injEq] at h; subst h; exact Or.inl (endElement_When _ _ _)
  | CharData text =>
      simp only [step, Option.some.injEq] at h; subst h
      rcases charData_When env s text with h | ⟨f, h⟩
      · exact Or.inl h
      · exact Or.inr ⟨f, text, h⟩
  | Other => simp only [step, Option.some.injEq] at h; subst h; exact Or.inl rfl

theorem getD_append_left (l : List FeedItem) (x : FeedItem) (p : Nat) (h : p < l.length) :
    (l ++ [x]).getD p default = l.getD p default := by
  rw [List.getD_eq_getElem?_getD, List.getD_eq_getElem?_getD, List.getElem?_append_left h]

theorem getD_append_length (l : List FeedItem) (x : FeedItem) :
    (l ++ [x]).getD l.length default = x := by
  rw [List.getD_eq_getElem?_getD, List.getElem?_append_right (Nat.le_refl _)]
  simp

/-- Every pointer of `Feed.Items` points into the heap. -/
theorem step_Items_lt (env : Env) (s s' : State) (t : Token) (h : step env s t = some s')
    (inv : ∀ p ∈ s.feed.Items, p < s.heap.length) :
    ∀ p ∈ s'.feed.Items, p < s'.heap.length := by
  have hlen : s.heap.length ≤ s'.heap.length := by
    cases ho : isItemOpen env s t with
    | true =>
        obtain ⟨e, rfl, he⟩ := step_open env s _ ho
        rw [h] at he; cases he
        show s.heap.length ≤ (s.heap ++ [newItem env s.clock]).length
        rw [List.length_append]; omega
    | false => rw [(step_frame env s s' t ho h).len]
  intro p hp
  rw [step_Items env s s' t h, List.mem_append] at hp
  rcases hp with hp | hp
  · exact Nat.lt_of_lt_of_le (inv p hp) hlen
  · split at hp
    · rw [List.mem_singleton] at hp
      rw [hp]
      exact Nat.lt_of_lt_of_le s.valid hlen
    · cases hp

theorem run_Items_lt (env : Env) (ts : List Token) (s s' : State) (h : run env s ts = some s')
    (inv : ∀ p ∈ s.feed.Items, p < s.heap.length) :
    ∀ p ∈ s'.feed.Items, p < s'.heap.length := by
  induction ts generalizing s with
  | nil => simp only [run, Option.some.injEq] at h; subst h; exact inv
  | cons t ts ih =>
      simp only [run] at h
      split at h
      · rename_i s1 hs
        exact ih s1 h (step_Items_lt env s s1 t hs inv)
      · cases h

/-! ## What each case writes to the current item -/

theorem enclosureCase_cur (env : Env) (s : State) (attrs : List Attr) :
    (enclosureCase env s attrs).cur =
      match attrs.find? (fun a => env.toLower a.Name.Local == "url") with
      | some a => { s.cur with Enclosure := a.Value, Media := s.cur.Media ++ [{ Url := a.Value }] }
      | none => s.cur := by
  unfold enclosureCase
  split
  · rw [cur_setCur]
  · rfl

theorem linkHref_level (env : Env) (s : State) (a : Attr) :
    (linkHref env s a).level = s.level := by
  unfold linkHref
  split_ifs <;> rfl

theorem linkHref_linkOk (env : Env) (s : State) (a : Attr) :
    (linkHref env s a).linkOk = s.linkOk := by
  unfold linkHref
  split_ifs <;> rfl

theorem linkRel_level (env : Env) (s : State) (a : Attr) :
    (linkRel env s a).level = s.level := by
  unfold linkRel
  split_ifs <;> rfl

theorem linkAttr_level (env : Env) (s : State) (a : Attr) :
    (linkAttr env s a).level = s.level := by
  unfold linkAttr
  rw [linkRel_level, linkHref_level]

theorem linkAttr_linkOk (env : Env) (s : State) (a : Attr) :
    (linkAttr env s a).linkOk =
      if s.level = levelPost ∧ env.toLower a.Name.Local = "rel" ∧ a.Value = "alternate" then true
      else s.linkOk := by
  unfold linkAttr linkRel
  rw [linkHref_level]
  by_cases h1 : s.level = levelPost ∧ env.toLower a.Name.Local = "rel"
  · by_cases h2 : a.Value = "alternate"
    · rw [if_pos h1, if_pos h2, if_pos ⟨h1.1, h1.2, h2⟩]
    · rw [if_pos h1, if_neg h2, if_neg (fun h => h2 h.2.2)]
      exact linkHref_linkOk env s a
  · rw [if_neg h1, if_neg (fun h => h1 ⟨h.1, h.2.1⟩)]
    exact linkHref_linkOk env s a

theorem contentUrl_cur (env : Env) (s : State) (attrs : List Attr) :
    (contentUrl env s attrs).cur =
      match attrs.find? (fun a => env.toLower a.Name.Local == "url") with
      | some a => { s.cur with Media := s.cur.Media ++ [{ Url := a.Value }] }
      | none => s.cur := by
  unfold contentUrl
  split
  · rw [cur_setCur]
  · rfl

theorem contentSize_cur (env : Env) (s s' : State) (attrs : List Attr)
    (h : contentSize env s attrs = some s') : s'.cur = { s.cur with Media := s'.cur.Media } := by
  unfold contentSize at h
  split at h
  · split at h
    · cases h; rw [cur_setCur]
    · cases h
  · cases h; rfl

theorem thumbnailCase_cur (env : Env) (s : State) (attrs : List Attr) :
    (thumbnailCase env s attrs).cur =
      if thumbAccept s.cur (attrs.foldl (thumbAttr env) ("", "")).1
          (attrs.foldl (thumbAttr env) ("", "")).2 then
        { s.cur with Image := (attrs.foldl (thumbAttr env) ("", "")).1,
                     ImageSource := (attrs.foldl (thumbAttr env) ("", "")).2 }
      else s.cur := by
  unfold thumbnailCase
  simp only []
  split
  · rw [cur_setCur]
  · rfl

theorem endElement_cur (env : Env) (s : State) (name : Name) :
    (endElement env s name).cur =
      if isItemClose env (.EndElement name) = true ∧ s.cur.Id = "" then
        { s.cur with Id := s.cur.Link }
      else s.cur := by
  unfold endElement isItemClose
  by_cases h : env.toLower name.Local = atomEntry ∨ env.toLower name.Local = rssItem
  · by_cases h2 : s.cur.Id = ""
    · simp only [h, h2, if_true, Bool.or_eq_true, beq_iff_eq, and_self]
      simp only [State.cur, State.setCur, getD_set_self _ _ _ s.valid]
    · simp only [h, h2, if_true, if_false, Bool.or_eq_true, beq_iff_eq, and_false]
      exact cur_congr rfl rfl
  · simp only [h, if_false, Bool.or_eq_true, beq_iff_eq, false_and]

theorem rssLinkCase_cur (env : Env) (s : State) (text : String) :
    (rssLinkCase env s text).cur =
      if s.linkOk = false then { s.cur with Link := text } else s.cur := by
  unfold rssLinkCase
  split
  · simp only [State.cur, State.setCur, getD_set_self _ _ _ s.valid]
  · rfl

theorem updatedCase_cur (env : Env) (s : State) (text : String) :
    (updatedCase env s text).cur =
      { s.cur with When := (parseTime env s.clock (updatedLayout env text) text).1 } := by
  simp only [updatedCase, State.cur, State.setCur, getD_set_self _ _ _ s.valid]

theorem pubDateCase_cur (env : Env) (s : State) (text : String) :
    (pubDateCase env s text).cur =
      { s.cur with When := (parseTime env s.clock (pubDateLayout env text) text).1 } := by
  simp only [pubDateCase, State.cur, State.setCur, getD_set_self _ _ _ s.valid]

/-! ## `linkOk` and the link of the current item -/

theorem enclosureCase_linkOk (env : Env) (s : State) (attrs : List Attr) :
    (enclosureCase env s attrs).linkOk = s.linkOk := by
  unfold enclosureCase; split <;> rfl

theorem contentUrl_linkOk (env : Env) (s : State) (attrs : List Attr) :
    (contentUrl env s attrs).linkOk = s.linkOk := by
  unfold contentUrl; split <;> rfl

theorem contentSize_linkOk (env : Env) (s s' : State) (attrs : List Attr)
    (h : contentSize env s attrs = some s') : s'.linkOk = s.linkOk := by
  unfold contentSize at h
  split at h
  · split at h
    · cases h; rfl
    · cases h
  · cases h; rfl

theorem contentCase_linkOk (env : Env) (s s' : State) (attrs : List Attr)
    (h : contentCase env s attrs = some s') : s'.linkOk = s.linkOk := by
  unfold contentCase at h
  split_ifs at h
  · cases h; rfl
  · exact (contentSize_linkOk env _ _ _ h).trans (contentUrl_linkOk env s attrs)
  · cases h; rfl

theorem contentCase_Link (env : Env) (s s' : State) (attrs : List Attr)
    (h : contentCase env s attrs = some s') : s'.cur.Link = s.cur.Link := by
  unfold contentCase at h
  split_ifs at h
  · cases h; rfl
  · rw [contentSize_cur env _ _ _ h, contentUrl_cur]
    split <;> rfl
  · cases h; rfl

theorem thumbnailCase_linkOk (env : Env) (s : State) (attrs : List Attr) :
    (thumbnailCase env s attrs).linkOk = s.linkOk := by
  unfold thumbnailCase; simp only []; split <;> rfl

theorem linkLoop_not_post (env : Env) (attrs : List Attr) (s : State)
    (h : s.level ≠ levelPost) :
    (linkLoop env s attrs).cur = s.cur ∧ (linkLoop env s attrs).linkOk = s.linkOk := by
  unfold linkLoop
  induction attrs generalizing s with
  | nil => exact ⟨rfl, rfl⟩
  | cons a as ih =>
      simp only [List.foldl_cons]
      have hl : (linkAttr env s a).level ≠ levelPost := by rw [linkAttr_level]; exact h
      have hc : (linkAttr env s a).cur = s.cur := by
        rw [linkAttr_cur, if_neg (fun hh => h hh.2)]
      have hk : (linkAttr env s a).linkOk = s.linkOk := by
        rw [linkAttr_linkOk, if_neg (fun hh => h hh.1)]
      exact ⟨(ih _ hl).1.trans hc, (ih _ hl).2.trans hk⟩

theorem linkCase_linkOk (env : Env) (s : State) (attrs : List Attr) (h : s.linkOk = true) :
    (linkCase env s attrs).cur = s.cur ∧ (linkCase env s attrs).linkOk = true := by
  unfold linkCase
  by_cases hl : s.level = levelPost
  · rw [if_pos ⟨hl, h⟩]; exact ⟨rfl, h⟩
  · rw [if_neg (fun hh => hl hh.1)]
    exact ⟨(linkLoop_not_post env attrs s hl).1, (linkLoop_not_post env attrs s hl).2.trans h⟩

theorem startElement_linkOk (env : Env) (s s' : State) (t : StartElement)
    (ho : isItemOpen env s (.StartElement t) = false) (hk : s.linkOk = true)
    (h : startElement env s t = some s') :
    s'.linkOk = true ∧ s'.cur.Link = s.cur.Link := by
  have h1 : ¬ ((s.atom = false ∧ env.toLower t.Name.Local = rssItem) ∨
      (s.atom = true ∧ env.toLower t.Name.Local = atomEntry)) := by
    intro hc
    have : isItemOpen env s (.StartElement t) = true := by simpa [isItemOpen] using hc
    rw [ho] at this; cases this
  unfold startElement at h
  simp only [enter_tag, enter_atom, h1, if_false] at h
  split_ifs at h
  · cases h; exact ⟨hk, rfl⟩
  · cases h; exact ⟨hk, rfl⟩
  · cases h
    refine ⟨(enclosureCase_linkOk env _ _).trans hk, ?_⟩
    rw [enclosureCase_cur]
    split <;> rfl
  · cases h
    have h2 := linkCase_linkOk env (s.enter env t) t.Attr hk
    exact ⟨h2.2, congrArg FeedItem.Link h2.1⟩
  · have h2 := contentCase_linkOk env _ _ _ h
    have h3 := contentCase_Link env _ _ _ h
    exact ⟨h2.trans hk, h3⟩
  · cases h
    refine ⟨(thumbnailCase_linkOk env _ _).trans hk, ?_⟩
    rw [thumbnailCase_cur]
    split <;> rfl
  · cases h; exact ⟨hk, rfl⟩

theorem endElement_linkOk (env : Env) (s : State) (name : Name) :
    (endElement env s name).linkOk = s.linkOk ∧
    (endElement env s name).cur.Link = s.cur.Link := by
  refine ⟨?_, ?_⟩
  · unfold endElement
    simp only []
    split_ifs <;> rfl
  · rw [endElement_cur]
    split <;> rfl

theorem postText_linkOk (env : Env) (s : State) (text : String) (hk : s.linkOk = true) :
    (postText env s text).linkOk = true ∧ (postText env s text).cur.Link = s.cur.Link := by
  unfold postText
  split_ifs
  · exact ⟨hk, by rw [cur_setCur]⟩
  · exact ⟨hk, by rw [cur_setCur]⟩
  · exact ⟨hk, by rw [cur_setCur]⟩
  · have hne : ¬ s.linkOk = false := by rw [hk]; decide
    unfold rssLinkCase
    rw [if_neg hne]
    exact ⟨hk, rfl⟩
  · exact ⟨hk, by rw [updatedCase_cur]⟩
  · exact ⟨hk, by rw [pubDateCase_cur]⟩
  · exact ⟨hk, rfl⟩

theorem feedText_linkOk (s : State) (text : String) :
    (feedText s text).linkOk = s.linkOk := by
  unfold feedText
  split_ifs <;> rfl

theorem charData_linkOk (env : Env) (s : State) (text : String) (hk : s.linkOk = true) :
    (charData env s text).linkOk = true ∧ (charData env s text).cur.Link = s.cur.Link := by
  unfold charData
  split_ifs
  · exact ⟨hk, rfl⟩
  · exact ⟨(feedText_linkOk s text).trans hk, congrArg FeedItem.Link (feedText_cur s text)⟩
  · exact postText_linkOk env s text hk
  · exact ⟨hk, rfl⟩

/-- Once `linkOk` is true, a step that does not allocate keeps it true and leaves
the link of the current item alone. -/
theorem step_linkOk (env : Env) (s s' : State) (t : Token)
    (ho : isItemOpen env s t = false) (hk : s.linkOk = true) (h : step env s t = some s') :
    s'.linkOk = true ∧ s'.cur.Link = s.cur.Link := by
  cases t with
  | StartElement e => exact startElement_linkOk env s s' e ho hk h
  | EndElement n =>
      simp only [step, Option.some.injEq] at h; subst h
      exact ⟨(endElement_linkOk env s n).1.trans hk, (endElement_linkOk env s n).2⟩
  | CharData text =>
      simp only [step, Option.some.injEq] at h; subst h
      exact charData_linkOk env s text hk
  | Other => simp only [step, Option.some.injEq] at h; subst h; exact ⟨hk, rfl⟩

/-! ## Items that are no longer current -/

/-- One step: the heap does not shrink, the pointer `item` stays or moves to a
cell that did not exist, and every cell other than `*item` is left alone. -/
theorem step_mono (env : Env) (s s' : State) (t : Token) (h : step env s t = some s') :
    s.heap.length ≤ s'.heap.length ∧ (s'.item = s.item ∨ s.heap.length ≤ s'.item) ∧
    ∀ p, p < s.heap.length → p ≠ s.item → deref s'.heap p = deref s.heap p := by
  cases ho : isItemOpen env s t with
  | true =>
      obtain ⟨e, rfl, he⟩ := step_open env s _ ho
      rw [h] at he
      cases he
      refine ⟨?_, Or.inr (Nat.le_refl _), fun p hp _ => getD_append_left _ _ _ hp⟩
      show s.heap.length ≤ (s.heap ++ [newItem env s.clock]).length
      rw [List.length_append]; omega
  | false =>
      have hf := step_frame env s s' t ho h
      exact ⟨by rw [hf.len], Or.inl hf.item, fun p _ hne => hf.other p hne⟩

theorem run_mono (env : Env) (ts : List Token) (s s' : State) (h : run env s ts = some s') :
    s.heap.length ≤ s'.heap.length ∧ (s'.item = s.item ∨ s.heap.length ≤ s'.item) ∧
    ∀ p, p < s.heap.length → p ≠ s.item → deref s'.heap p = deref s.heap p := by
  induction ts generalizing s with
  | nil =>
      simp only [run, Option.some.injEq] at h; subst h
      exact ⟨Nat.le_refl _, Or.inl rfl, fun _ _ _ => rfl⟩
  | cons t ts ih =>
      simp only [run] at h
      split at h
      · rename_i s1 hs
        obtain ⟨a1, a2, a3⟩ := step_mono env s s1 t hs
        obtain ⟨b1, b2, b3⟩ := ih s1 h
        refine ⟨Nat.le_trans a1 b1, ?_, ?_⟩
        · rcases b2 with b2 | b2
          · rw [b2]; exact a2
          · exact Or.inr (Nat.le_trans a1 b2)
        · intro p hp hne
          have hne1 : p ≠ s1.item := by
            rcases a2 with a2 | a2
            · rw [a2]; exact hne
            · omega
          rw [b3 p (Nat.lt_of_lt_of_le hp a1) hne1]
          exact a3 p hp hne
      · cases h

/-- After a step that allocates, every cell that existed before is left alone by
all later steps. -/
theorem run_after_open (env : Env) (s s' : State) (o : Token) (rest : List Token)
    (ho : isItemOpen env s o = true) (h : run env s (o :: rest) = some s') :
    ∀ p, p < s.heap.length → deref s'.heap p = deref s.heap p := by
  obtain ⟨e, rfl, he⟩ := step_open env s _ ho
  simp only [run, he] at h
  intro p hp
  have hm := (run_mono env rest _ s' h).2.2 p
    (by
      show p < (s.heap ++ [newItem env s.clock]).length
      rw [List.length_append]; omega)
    (by
      show p ≠ s.heap.length
      omega)
  rw [hm]
  exact getD_append_left _ _ _ hp

/-- The pointers a run appends to `Feed.Items`: each is the pointer `item` of the
start, or points to a cell that did not exist at the start. -/
theorem run_Items_new (env : Env) (ts : List Token) (s s' : State)
    (h : run env s ts = some s') :
    ∃ qs, s'.feed.Items = s.feed.Items ++ qs ∧
      ∀ q ∈ qs, q = s.item ∨ s.heap.length ≤ q := by
  induction ts generalizing s with
  | nil =>
      simp only [run, Option.some.injEq] at h; subst h
      exact ⟨[], by simp, fun q hq => by cases hq⟩
  | cons t ts ih =>
      simp only [run] at h
      split at h
      · rename_i s1 hs
        obtain ⟨a1, a2, _⟩ := step_mono env s s1 t hs
        obtain ⟨qs, hq1, hq2⟩ := ih s1 h
        refine ⟨(if isItemClose env t = true then [s.item] else []) ++ qs, ?_, ?_⟩
        · rw [hq1, step_Items env s s1 t hs, List.append_assoc]
        · intro q hq
          rw [List.mem_append] at hq
          rcases hq with hq | hq
          · split at hq
            · rw [List.mem_singleton] at hq; exact Or.inl hq
            · cases hq
          · rcases hq2 q hq with h3 | h3
            · rcases a2 with a2 | a2
              · exact Or.inl (h3.trans a2)
              · exact Or.inr (h3 ▸ a2)
            · exact Or.inr (Nat.le_trans a1 h3)
      · cases h

/-! ## Runs -/

theorem run_append (env : Env) (a b : List Token) (s : State) :
    run env s (a ++ b) = (run env s a).bind (fun s1 => run env s1 b) := by
  induction a generalizing s with
  | nil => rfl
  | cons t ts ih =>
      simp only [List.cons_append, run]
      cases step env s t with
      | none => rfl
      | some s1 => exact ih s1

/-! ## Tokens that leave `Id` and `Link` of the current item alone -/

theorem TrimSpace_ne_empty (text : String) (h : TrimSpace text ≠ "") : text ≠ "" := by
  intro h0
  subst h0
  exact h (by decide)

theorem endElement_Title (env : Env) (s : State) (name : Name) :
    (endElement env s name).feed.Title = s.feed.Title := by
  unfold endElement
  simp only []
  split_ifs <;> rfl

theorem charData_Title (env : Env) (s : State) (text : String) :
    (charData env s text).feed.Title =
      if s.feed.Title = "" then (feedTitleText s (.CharData text)).getD "" else s.feed.Title := by
  unfold charData feedTitleText
  by_cases hb : TrimSpace text = ""
  · simp only [hb, if_true, ne_eq, not_true_eq_false, false_and, if_false, Option.getD_none]
    split <;> simp_all
  · by_cases hl : s.level = levelFeed
    · simp only [hb, hl, if_false, if_true, ne_eq, not_false_eq_true, true_and]
      unfold feedText
      by_cases ht : s.tag = feedTitle
      · by_cases h0 : s.feed.Title = ""
        · simp only [ht, h0, if_true, Option.getD_some]
        · simp only [ht, h0, if_true, if_false]
      · simp only [ht, if_false, Option.getD_none]
        split_ifs <;> simp_all
    · simp only [hb, hl, if_false, ne_eq, not_false_eq_true, true_and, false_and,
        Option.getD_none]
      have : (if s.level = levelPost then postText env s text else s).feed.Title = s.feed.Title := by
        split
        · rw [postText_feed]
        · rfl
      rw [this]
      split <;> simp_all

theorem step_Title (env : Env) (s s' : State) (t : Token) (h : step env s t = some s') :
    s'.feed.Title =
      if s.feed.Title = "" then (feedTitleText s t).getD "" else s.feed.Title := by
  cases t with
  | StartElement e =>
      simp only [step] at h
      rw [(startElement_feed env s s' e h).2]
      simp only [feedTitleText, Option.getD_none]
      split <;> simp_all
  | EndElement n =>
      simp only [step, Option.some.injEq] at h; subst h
      rw [endElement_Title]
      simp only [feedTitleText, Option.getD_none]
      split <;> simp_all
  | CharData text =>
      simp only [step, Option.some.injEq] at h; subst h
      exact charData_Title env s text
  | Other =>
      simp only [step, Option.some.injEq] at h; subst h
      simp only [feedTitleText, Option.getD_none]
      split <;> simp_all

theorem feedTitleText_ne_empty (s : State) (t : Token) (text : String)
    (h : feedTitleText s t = some text) : text ≠ "" := by
  cases t with
  | CharData x =>
      simp only [feedTitleText] at h
      split at h
      · rename_i hc
        cases h
        exact TrimSpace_ne_empty _ hc.1
      · cases h
  | StartElement e => simp [feedTitleText] at h
  | EndElement n => simp [feedTitleText] at h
  | Other => simp [feedTitleText] at h

theorem run_Title_keep (env : Env) (ts : List Token) (s s' : State)
    (h : run env s ts = some s') (h0 : s.feed.Title ≠ "") : s'.feed.Title = s.feed.Title := by
  induction ts generalizing s with
  | nil => simp only [run, Option.some.injEq] at h; subst h; rfl
  | cons t ts ih =>
      simp only [run] at h
      split at h
      · rename_i s1 hs
        have h1 : s1.feed.Title = s.feed.Title := by
          rw [step_Title env s s1 t hs, if_neg h0]
        rw [ih s1 h (by rw [h1]; exact h0), h1]
      · cases h

theorem run_Title_first (env : Env) (ts : List Token) (s s' : State)
    (h : run env s ts = some s') (h0 : s.feed.Title = "") :
    s'.feed.Title = (firstFeedTitle env s ts).getD "" := by
  induction ts generalizing s with
  | nil =>
      simp only [run, Option.some.injEq] at h; subst h
      simp only [firstFeedTitle, Option.getD_none]; exact h0
  | cons t ts ih =>
      simp only [run] at h
      split at h
      · rename_i s1 hs
        have h1 := step_Title env s s1 t hs
        rw [if_pos h0] at h1
        cases hf : feedTitleText s t with
        | some text =>
            rw [hf] at h1
            simp only [Option.getD_some] at h1
            simp only [firstFeedTitle, hf, Option.getD_some]
            rw [run_Title_keep env ts s1 s' h (by rw [h1]; exact feedTitleText_ne_empty s t text hf)]
            exact h1
        | none =>
            rw [hf] at h1
            simp only [Option.getD_none] at h1
            simp only [firstFeedTitle, hf, hs]
            exact ih s1 h h1
      · cases h

/-! ## Link elements -/

theorem isItemOpen_of_name (env : Env) (s : State) (t : Token)
    (h : isItemOpenName env t = false) : isItemOpen env s t = false := by
  cases t with
  | StartElement e =>
      simp only [isItemOpenName, Bool.or_eq_false_iff, beq_eq_false_iff_ne, ne_eq] at h
      simp only [isItemOpen, Bool.or_eq_false_iff, Bool.and_eq_false_imp, beq_eq_false_iff_ne,
        ne_eq, Bool.not_eq_true']
      exact ⟨fun _ => h.1, fun _ => h.2⟩
  | EndElement n => rfl
  | CharData text => rfl
  | Other => rfl

/-- Over a run without an item/entry open event, a true `linkOk` stays true and
the pointer `item` and the link of the current item stay as they are. -/
theorem run_linkOk (env : Env) (ts : List Token) (s s' : State)
    (hno : ∀ t ∈ ts, isItemOpenName env t = false) (hk : s.linkOk = true)
    (h : run env s ts = some s') :
    s'.linkOk = true ∧ s'.cur.Link = s.cur.Link ∧ s'.item = s.item := by
  induction ts generalizing s with
  | nil => simp only [run, Option.some.injEq] at h; subst h; exact ⟨hk, rfl, rfl⟩
  | cons t ts ih =>
      simp only [run] at h
      split at h
      · rename_i s1 hs
        have ho := isItemOpen_of_name env s t (hno t (List.mem_cons_self _ _))
        obtain ⟨a1, a2⟩ := step_linkOk env s s1 t ho hk hs
        have a3 := (step_frame env s s1 t ho hs).item
        obtain ⟨b1, b2, b3⟩ := ih s1 (fun u hu => hno u (List.mem_cons_of_mem _ hu)) a1 h
        exact ⟨b1, b2.trans a2, b3.trans a3⟩
      · cases h

/-- A link element never panics, whatever the state. -/
theorem step_link_some (env : Env) (s : State) (t : Token) (ht : isLinkElement env t = true) :
    ∃ s1, step env s t = some s1 := by
  cases t with
  | StartElement e =>
      have hl : env.toLower e.Name.Local = atomLink := by simpa [isLinkElement] using ht
      simp only [step, startElement, enter_tag, enter_atom, enter_ns, hl]
      have e1 : ¬ atomLink = atomFeed := by decide
      have e2 : ¬ atomLink = rssChannel := by decide
      have e3 : ¬ atomLink = rssItem := by decide
      have e4 : ¬ atomLink = atomEntry := by decide
      have e5 : ¬ atomLink = "enclosure" := by decide
      have e6 : ¬ atomLink = "content" := by decide
      simp only [e1, e2, e3, e4, e5, e6, if_false, and_false, or_self]
      split_ifs <;> exact ⟨_, rfl⟩
  | EndElement n => exact ⟨_, rfl⟩
  | CharData text => exact ⟨_, rfl⟩
  | Other => exact ⟨_, rfl⟩

theorem isItemOpenName_of_link (env : Env) (t : Token) (ht : isLinkElement env t = true) :
    isItemOpenName env t = false := by
  cases t with
  | StartElement e =>
      have hl : env.toLower e.Name.Local = atomLink := by simpa [isLinkElement] using ht
      simp only [isItemOpenName, hl]
      decide
  | EndElement n => rfl
  | CharData text => rfl
  | Other => rfl

theorem isItemClose_of_link (env : Env) (t : Token) (ht : isLinkElement env t = true) :
    isItemClose env t = false := by
  cases t with
  | StartElement e => rfl
  | EndElement n =>
      have hl : env.toLower n.Local = atomLink := by simpa [isLinkElement] using ht
      simp only [isItemClose, hl]
      decide
  | CharData text => rfl
  | Other => rfl

/-- A run of link elements from a state with a true `linkOk` does not panic, and
keeps `Feed.Items`, the pointer `item` and the link of the current item. -/
theorem run_links (env : Env) (ts : List Token) (s : State)
    (hl : ∀ t ∈ ts, isLinkElement env t = true) (hk : s.linkOk = true) :
    ∃ s1, run env s ts = some s1 ∧ s1.cur.Link = s.cur.Link ∧ s1.item = s.item ∧
      s1.feed.Items = s.feed.Items := by
  induction ts generalizing s with
  | nil => exact ⟨s, rfl, rfl, rfl, rfl⟩
  | cons t ts ih =>
      have ht := hl t (List.mem_cons_self _ _)
      obtain ⟨s1, hs⟩ := step_link_some env s t ht
      have ho := isItemOpen_of_name env s t (isItemOpenName_of_link env t ht)
      obtain ⟨a1, a2⟩ := step_linkOk env s s1 t ho hk hs
      have a3 := (step_frame env s s1 t ho hs).item
      have a4 : s1.feed.Items = s.feed.Items := by
        rw [step_Items env s s1 t hs, isItemClose_of_link env t ht]
        simp
      obtain ⟨s2, b1, b2, b3, b4⟩ := ih s1 (fun u hu => hl u (List.mem_cons_of_mem _ hu)) a1
      refine ⟨s2, ?_, b2.trans a2, b3.trans a3, b4.trans a4⟩
      simp only [run, hs, b1]

/-- The element-open event of a link element in the Atom dialect is handled by
`linkCase`. -/
theorem step_atom_link (env : Env) (s : State) (e : StartElement) (hatom : s.atom = true)
    (hl : env.toLower e.Name.Local = atomLink) :
    step env s (.StartElement e) = some (linkCase env (s.enter env e) e.Attr) := by
  have e1 : ¬ atomLink = atomFeed := by decide
  have e2 : ¬ atomLink = rssChannel := by decide
  have e3 : ¬ atomLink = rssItem := by decide
  have e4 : ¬ atomLink = atomEntry := by decide
  have e5 : ¬ atomLink = "enclosure" := by decide
  simp only [step, startElement, enter_tag, enter_atom, hl, hatom, e1, e2, e3, e4, e5,
    if_false, if_true, and_false, or_self, and_self]

/-- At `levelPost` with `linkOk` false, the attribute loop over `rel="alternate"`
and `href=h`, in either order, sets the link of the item to `h` and `linkOk`. -/
theorem linkLoop_alternate (env : Env) (s : State) (attrs : List Attr) (h : String)
    (hlev : s.level = levelPost) (ha : isAlternateHref env attrs h) :
    (linkLoop env s attrs).linkOk = true ∧ (linkLoop env s attrs).cur.Link = h := by
  obtain ⟨a, b, a1, a2, b1, b2, hab⟩ := ha
  have r1 : ¬ env.toLower a.Name.Local = atomLinkHref := by rw [a1]; decide
  have r2 : ¬ env.toLower b.Name.Local = "rel" := by rw [b1]; decide
  rcases hab with rfl | rfl
  · simp only [linkLoop, List.foldl_cons, List.foldl_nil]
    have hlev1 : (linkAttr env s a).level = levelPost := by rw [linkAttr_level]; exact hlev
    have hk1 : (linkAttr env s a).linkOk = true := by
      rw [linkAttr_linkOk, if_pos ⟨hlev, a1, a2⟩]
    refine ⟨?_, ?_⟩
    · rw [linkAttr_linkOk, if_neg (fun hh => r2 hh.2.1)]
      exact hk1
    · rw [linkAttr_cur, if_pos ⟨b1, hlev1⟩]
      exact b2
  · simp only [linkLoop, List.foldl_cons, List.foldl_nil]
    have hlev1 : (linkAttr env s b).level = levelPost := by rw [linkAttr_level]; exact hlev
    have hc1 : (linkAttr env s b).cur.Link = h := by
      rw [linkAttr_cur, if_pos ⟨b1, hlev⟩]
      exact b2
    refine ⟨?_, ?_⟩
    · rw [linkAttr_linkOk, if_pos ⟨hlev1, a1, a2⟩]
    · rw [linkAttr_cur, if_neg (fun hh => r1 hh.1)]
      exact hc1

/-! ## Claims -/

/-- C1: when `NewFeed` consumes the tokens to `io.EOF` and returns a feed, the
number of items of the feed is the number of element-close tokens whose
lower-cased local name is "entry" or "item"; the dialect, the level, the
namespace and the element-open tokens seen play no part. -/
theorem NewFeed_Items_length (env : Env) (tokens : List Token)
    (h : NewFeed env tokens none ≠ .panic) :
    (NewFeed env tokens none).items.length = (tokens.filter (isItemClose env)).length := by
  unfold NewFeed at h ⊢
  cases hr : run env initState tokens with
  | none => rw [hr] at h; exact absurd rfl h
  | some s =>
      simp only [Outcome.items, List.length_map]
      rw [run_Items_length env tokens initState s hr]
      simp [initState]

theorem NewFeed_Items_length_witness :
    NewFeed testEnv [startTok "" "rss" [], startTok "" "entry" [], endTok "" "Entry",
        startTok "" "item" [], endTok "" "title", endTok "" "ITEM"] none ≠ .panic ∧
    (NewFeed testEnv [startTok "" "rss" [], startTok "" "entry" [], endTok "" "Entry",
        startTok "" "item" [], endTok "" "title", endTok "" "ITEM"] none).items.length = 2 :=
  ⟨by decide, NewFeed_Items_length testEnv _ (by decide)⟩

/-- When the loop reaches the end of the tokens, `NewFeed` returns the feed at
`io.EOF` and the error of the tokenizer otherwise. -/
theorem NewFeed_of_run (env : Env) (tokens : List Token) (s : State)
    (h : run env initState tokens = some s) :
    NewFeed env tokens none = .feed s.feed s.heap ∧
    ∀ err, NewFeed env tokens (some err) = .error err := by
  unfold NewFeed
  rw [h]
  exact ⟨rfl, fun _ => rfl⟩

/-- C2 (fails on the code): on the tokens of the document `docVideoNoUrl` the
loop panics at the fourth token, so `NewFeed` returns neither the feed when the
stream ends at `io.EOF` nor the error when the tokenizer fails after the fourth
token. -/
theorem NewFeed_panic_before_return :
    NewFeed testEnv docVideoNoUrl none = .panic ∧
    NewFeed testEnv (docVideoNoUrl.take 4) (some "XML syntax error: unexpected EOF") = .panic := by
  decide

/-- C3 (fails on the code): after the tokens `<rss><channel><item>` the level is
`levelPost` and the media list of the current item is empty; the element-open
token `<media:content type="video/mp4" fileSize="1024">` then indexes
`item.Media[len(item.Media)-1]` out of range and the step panics. -/
theorem content_filesize_out_of_range :
    (run testEnv initState (docVideoNoUrl.take 3)).map
      (fun s => (s.level, s.cur.Media,
        step testEnv s (startTok mediaNs "content"
          [attr "type" "video/mp4", attr "fileSize" "1024"]))) =
      some (levelPost, [], none) := by
  decide

/-- C6 (fails as stated): in `docRssLateTitle` the item is appended by the close
event that ends the first seven tokens, with `Title` "T"; the tokens after
it hold no item/entry open event, and the character data "Late" of the title
element that follows the close changes the `Title` of the appended item. -/
theorem appended_item_changed_counterexample :
    (NewFeed testEnv (docRssLateTitle.take 7) none).items.map FeedItem.Title = ["T"] ∧
    (docRssLateTitle.drop 7).all (fun t => !isItemOpenName testEnv t) = true ∧
    (NewFeed testEnv docRssLateTitle none).items.map FeedItem.Title = ["Late"] := by
  decide

/-- C6 (amended): from the initial state, once an element-open event that
allocates a new item has been processed, no later event changes any field of an
item that was in `Feed.Items` before that event. -/
theorem appended_items_frozen_after_open (env : Env) (pre rest : List Token) (o : Token)
    (s s' : State) (hpre : run env initState pre = some s)
    (ho : isItemOpen env s o = true) (h : run env s (o :: rest) = some s') :
    ∀ p ∈ s.feed.Items, deref s'.heap p = deref s.heap p := by
  intro p hp
  have hlt : p < s.heap.length :=
    run_Items_lt env pre initState s hpre (fun q hq => by cases hq) p hp
  exact run_after_open env s s' o rest ho h p hlt

theorem appended_items_frozen_after_open_witness :
    (∃ s s', run testEnv initState (docRssTwoItems.take 8) = some s ∧
      run testEnv s (docRssTwoItems.drop 8) = some s' ∧
      s.feed.Items = [1] ∧ ∀ p ∈ s.feed.Items, deref s'.heap p = deref s.heap p) :=
  match hs : run testEnv initState (docRssTwoItems.take 8),
        hs' : (run testEnv initState (docRssTwoItems.take 8)).bind
                (fun s => run testEnv s (docRssTwoItems.drop 8)) with
  | some s, some s' =>
      have h1 : run testEnv s (docRssTwoItems.drop 8) = some s' := by
        rw [hs] at hs'; exact hs'
      have hatom : s.atom = false := by
        have : (run testEnv initState (docRssTwoItems.take 8)).map (fun s => s.atom) = some false := by
          decide
        rw [hs] at this
        exact Option.some.inj this
      have hitems : s.feed.Items = [1] := by
        have : (run testEnv initState (docRssTwoItems.take 8)).map (fun s => s.feed.Items) =
            some [1] := by
          decide
        rw [hs] at this
        exact Option.some.inj this
      ⟨s, s', rfl, h1, hitems,
        appended_items_frozen_after_open testEnv (docRssTwoItems.take 8)
          (docRssTwoItems.drop 9) (startTok "" "item" []) s s' hs
          (by simp only [isItemOpen, startTok, hatom]; decide) h1⟩
  | none, _ => absurd hs (by decide)
  | some _, none => absurd hs' (by decide)

/-- C7 (fails as stated): in `docRssNested` the close events of `entry` and of
`item` both append the item allocated by the open event of `item` (pointer 1),
so `Feed.Items` holds the same item twice. -/
theorem item_appended_twice_counterexample :
    (NewFeed testEnv docRssNested none).ptrs = [1, 1] := by
  decide

/-- C7 (amended): from the initial state, every item appended to `Feed.Items`
after an element-open event that allocates a new item is distinct from every
item that was in `Feed.Items` before that event. -/
theorem appended_after_open_distinct (env : Env) (pre rest : List Token) (o : Token)
    (s s' : State) (hpre : run env initState pre = some s)
    (ho : isItemOpen env s o = true) (h : run env s (o :: rest) = some s') :
    ∃ qs, s'.feed.Items = s.feed.Items ++ qs ∧ ∀ q ∈ qs, q ∉ s.feed.Items := by
  obtain ⟨e, rfl, he⟩ := step_open env s _ ho
  have h2 : run env ((s.enter env e).alloc env) rest = some s' := by
    simpa only [run, he] using h
  obtain ⟨qs, hq1, hq2⟩ := run_Items_new env rest _ s' h2
  refine ⟨qs, hq1, ?_⟩
  intro q hq hmem
  have hlt : q < s.heap.length :=
    run_Items_lt env pre initState s hpre (fun r hr => by cases hr) q hmem
  have hge : s.heap.length ≤ q := by
    rcases hq2 q hq with h3 | h3
    · exact Nat.le_of_eq h3.symm
    · have h4 : (s.heap ++ [newItem env s.clock]).length ≤ q := h3
      rw [List.length_append] at h4
      omega
  omega

theorem appended_after_open_distinct_witness :
    (∃ s s', run testEnv initState (docRssTwoItems.take 8) = some s ∧
      run testEnv s (docRssTwoItems.drop 8) = some s' ∧
      s.feed.Items = [1] ∧
      ∃ qs, s'.feed.Items = s.feed.Items ++ qs ∧ ∀ q ∈ qs, q ∉ s.feed.Items) :=
  match hs : run testEnv initState (docRssTwoItems.take 8),
        hs' : (run testEnv initState (docRssTwoItems.take 8)).bind
                (fun s => run testEnv s (docRssTwoItems.drop 8)) with
  | some s, some s' =>
      have h1 : run testEnv s (docRssTwoItems.drop 8) = some s' := by
        rw [hs] at hs'; exact hs'
      have hatom : s.atom = false := by
        have : (run testEnv initState (docRssTwoItems.take 8)).map (fun s => s.atom) = some false := by
          decide
        rw [hs] at this
        exact Option.some.inj this
      have hitems : s.feed.Items = [1] := by
        have : (run testEnv initState (docRssTwoItems.take 8)).map (fun s => s.feed.Items) =
            some [1] := by
          decide
        rw [hs] at this
        exact Option.some.inj this
      ⟨s, s', rfl, h1, hitems,
        appended_after_open_distinct testEnv (docRssTwoItems.take 8)
          (docRssTwoItems.drop 9) (startTok "" "item" []) s s' hs
          (by simp only [isItemOpen, startTok, hatom]; decide) h1⟩
  | none, _ => absurd hs (by decide)
  | some _, none => absurd hs' (by decide)

/-- C8: over every run without a panic, a non-empty `Feed.Title` is changed by no
event; and from a state with an empty `Feed.Title`, the title at the end is the
text of the first non-whitespace character-data event that occurs at `levelFeed`
while the current tag is "title" (the empty string when there is none), so a
second feed-level title is ignored. -/
theorem feed_Title_first_wins (env : Env) (ts : List Token) (s s' : State)
    (h : run env s ts = some s') :
    (s.feed.Title ≠ "" → s'.feed.Title = s.feed.Title) ∧
    (s.feed.Title = "" → s'.feed.Title = (firstFeedTitle env s ts).getD "") :=
  ⟨run_Title_keep env ts s s' h, run_Title_first env ts s s' h⟩

theorem feed_Title_first_wins_witness :
    (∃ s', run testEnv initState docTwoTitles = some s' ∧ s'.feed.Title = "First" ∧
      firstFeedTitle testEnv initState docTwoTitles = some "First") :=
  match hs : run testEnv initState docTwoTitles with
  | some s' =>
      have h1 := (feed_Title_first_wins testEnv docTwoTitles initState s' hs).2 rfl
      have h2 : firstFeedTitle testEnv initState docTwoTitles = some "First" := by decide
      ⟨s', rfl, by rw [h1, h2]; rfl, h2⟩
  | none => absurd hs (by decide)

/-- C9: over every run that holds no item/entry open event and does not panic, a
true `linkOk` keeps the link of the current item as it is.  Hence, in the Atom
dialect at `levelPost` with `linkOk` false, a link element with `rel="alternate"`
and href `h` (in either order), then any further link elements, then the close
of the entry: the run does not panic and appends the current item with `Link`
equal to `h`. -/
theorem alternate_link_is_kept (env : Env) :
    (∀ (ts : List Token) (s s' : State),
      (∀ t ∈ ts, isItemOpenName env t = false) → s.linkOk = true →
      run env s ts = some s' → s'.cur.Link = s.cur.Link) ∧
    (∀ (s : State) (e : StartElement) (more : List Token) (c : Name) (h : String),
      s.atom = true → s.level = levelPost → s.linkOk = false →
      env.toLower e.Name.Local = atomLink → isAlternateHref env e.Attr h →
      (∀ t ∈ more, isLinkElement env t = true) → env.toLower c.Local = atomEntry →
      ∃ s', run env s (.StartElement e :: (more ++ [.EndElement c])) = some s' ∧
        s'.feed.Items = s.feed.Items ++ [s.item] ∧ (deref s'.heap s.item).Link = h) := by
  refine ⟨fun ts s s' hno hk h => (run_linkOk env ts s s' hno hk h).2.1, ?_⟩
  intro s e more c h hatom hlev hk hl ha hmore hc
  have hstep := step_atom_link env s e hatom hl
  have hcase : linkCase env (s.enter env e) e.Attr = linkLoop env (s.enter env e) e.Attr := by
    unfold linkCase
    have : ¬ ((s.enter env e).level = levelPost ∧ (s.enter env e).linkOk = true) := by
      intro hh
      have h1 : s.linkOk = true := hh.2
      rw [hk] at h1
      cases h1
    rw [if_neg this]
  rw [hcase] at hstep
  obtain ⟨k1, k2⟩ := linkLoop_alternate env (s.enter env e) e.Attr h hlev ha
  have hi1 : (linkLoop env (s.enter env e) e.Attr).item = s.item :=
    (linkLoop_frame env e.Attr (s.enter env e)).item
  have hI1 : (linkLoop env (s.enter env e) e.Attr).feed.Items = s.feed.Items :=
    (linkLoop_feed env e.Attr (s.enter env e)).1
  obtain ⟨s2, m1, m2, m3, m4⟩ := run_links env more _ hmore k1
  refine ⟨endElement env s2 c, ?_, ?_, ?_⟩
  · simp only [run, hstep]
    rw [run_append, m1]
    rfl
  · have hclose : isItemClose env (.EndElement c) = true := by
      simp only [isItemClose, hc]
      decide
    rw [endElement_Items, if_pos hclose, m4, hI1, m3, hi1]
  · have hi3 : (endElement env s2 c).item = s.item :=
      ((endElement_frame env s2 c).item.trans m3).trans hi1
    have hd : deref (endElement env s2 c).heap s.item = (endElement env s2 c).cur := by
      unfold deref State.cur; rw [hi3]
    rw [hd, (endElement_linkOk env s2 c).2, m2, k2]

theorem alternate_link_is_kept_witness :
    (∃ s', run testEnv { initState with atom := true, level := levelPost, linkOk := true }
        [startTok atomNs "link" [attr "href" "http://x/b"], endTok atomNs "link"] = some s' ∧
      s'.cur.Link = "") ∧
    (∃ s', run testEnv { initState with atom := true, level := levelPost }
        [startTok atomNs "link" [attr "href" "http://x/a", attr "rel" "alternate"],
         endTok atomNs "link",
         startTok atomNs "link" [attr "rel" "self", attr "href" "http://x/b"],
         endTok atomNs "link", endTok atomNs "entry"] = some s' ∧
      s'.feed.Items = [0] ∧ (deref s'.heap 0).Link = "http://x/a") :=
  ⟨match hs : run testEnv { initState with atom := true, level := levelPost, linkOk := true }
        [startTok atomNs "link" [attr "href" "http://x/b"], endTok atomNs "link"] with
    | some s' =>
        ⟨s', rfl, (alternate_link_is_kept testEnv).1 _ _ s' (by decide) rfl hs⟩
    | none => absurd hs (by decide),
   (alternate_link_is_kept testEnv).2 { initState with atom := true, level := levelPost }
    { Name := { Space := atomNs, Local := "link" },
      Attr := [attr "href" "http://x/a", attr "rel" "alternate"] }
    [endTok atomNs "link",
     startTok atomNs "link" [attr "rel" "self", attr "href" "http://x/b"],
     endTok atomNs "link"]
    { Space := atomNs, Local := "entry" } "http://x/a"
    rfl rfl rfl (by decide)
    ⟨attr "rel" "alternate", attr "href" "http://x/a", by decide, rfl, by decide, rfl,
      Or.inr rfl⟩
    (by decide) (by decide)⟩

/-- The first attribute that satisfies `p` is what `find?` returns. -/
theorem find?_first (p : Attr → Bool) (pre post : List Attr) (a : Attr)
    (hpre : ∀ b ∈ pre, p b = false) (ha : p a = true) :
    (pre ++ a :: post).find? p = some a := by
  induction pre with
  | nil => simp [List.find?, ha]
  | cons b bs ih =>
      have hb : p b = false := hpre b (List.mem_cons_self _ _)
      simp only [List.cons_append, List.find?, hb]
      exact ih (fun c hc => hpre c (List.mem_cons_of_mem _ hc))

/-- An element-open event named "enclosure" is handled by `enclosureCase`. -/
theorem step_enclosure (env : Env) (s : State) (e : StartElement)
    (htag : env.toLower e.Name.Local = "enclosure") :
    step env s (.StartElement e) = some (enclosureCase env (s.enter env e) e.Attr) := by
  have e1 : ¬ "enclosure" = atomFeed := by decide
  have e2 : ¬ "enclosure" = rssChannel := by decide
  have e3 : ¬ "enclosure" = rssItem := by decide
  have e4 : ¬ "enclosure" = atomEntry := by decide
  simp only [step, startElement, enter_tag, enter_atom, htag, e1, e2, e3, e4,
    if_false, if_true, and_false, or_self]

/-- C10: in a state whose current item has an empty media list (in the RSS
dialect, and in the Atom dialect alike), an element-open event named "enclosure"
whose first attribute with lower-cased local name "url" is `a` does not panic,
sets `Enclosure` of the current item to the value of `a`, and makes its media
list the single entry with that url and an empty size. -/
theorem enclosure_first_url (env : Env) (s : State) (e : StartElement)
    (pre post : List Attr) (a : Attr)
    (hmedia : s.cur.Media = []) (htag : env.toLower e.Name.Local = "enclosure")
    (hattr : e.Attr = pre ++ a :: post)
    (hpre : ∀ b ∈ pre, env.toLower b.Name.Local ≠ "url")
    (ha : env.toLower a.Name.Local = "url") :
    ∃ s', step env s (.StartElement e) = some s' ∧ s'.item = s.item ∧
      s'.cur.Enclosure = a.Value ∧ s'.cur.Media = [{ Url := a.Value, Size := "" }] := by
  have hfind : e.Attr.find? (fun b => env.toLower b.Name.Local == "url") = some a := by
    rw [hattr]
    refine find?_first _ pre post a ?_ ?_
    · intro b hb
      exact beq_eq_false_iff_ne.mpr (hpre b hb)
    · exact beq_iff_eq.mpr ha
  have hcur : (s.enter env e).cur = s.cur := cur_congr rfl rfl
  refine ⟨_, step_enclosure env s e htag, (enclosureCase_frame env _ _).item, ?_, ?_⟩
  · rw [enclosureCase_cur, hfind]
  · rw [enclosureCase_cur, hfind]
    show (s.enter env e).cur.Media ++ [{ Url := a.Value }] = [{ Url := a.Value, Size := "" }]
    rw [hcur, hmedia]
    rfl

theorem enclosure_first_url_witness :
    (∃ s', step testEnv initState
        (startTok "" "enclosure"
          [attr "type" "video/mp4", attr "URL" "http://x/file.mp4", attr "url" "http://x/other"])
          = some s' ∧ s'.item = initState.item ∧
      s'.cur.Enclosure = "http://x/file.mp4" ∧
      s'.cur.Media = [{ Url := "http://x/file.mp4", Size := "" }]) :=
  enclosure_first_url testEnv initState
    { Name := { Space := "", Local := "enclosure" },
      Attr := [attr "type" "video/mp4", attr "URL" "http://x/file.mp4",
               attr "url" "http://x/other"] }
    [attr "type" "video/mp4"] [attr "url" "http://x/other"] (attr "URL" "http://x/file.mp4")
    rfl (by decide) rfl (by decide) (by decide)

/-! ## Blank text -/

theorem exists_mem_dropWhile (p : Char → Bool) (l : List Char)
    (h : ∃ c ∈ l, p c = false) : ∃ c ∈ l.dropWhile p, p c = false := by
  induction l with
  | nil => obtain ⟨c, hc, _⟩ := h; cases hc
  | cons a as ih =>
      cases ha : p a with
      | true =>
          rw [List.dropWhile_cons_of_pos ha]
          apply ih
          obtain ⟨c, hc, hpc⟩ := h
          rcases List.mem_cons.mp hc with rfl | hc
          · rw [ha] at hpc; cases hpc
          · exact ⟨c, hc, hpc⟩
      | false =>
          rw [List.dropWhile_cons_of_neg (by rw [ha]; decide)]
          exact ⟨a, List.mem_cons_self _ _, ha⟩

/-- `TrimSpace` gives the empty string exactly on the texts that are empty or
consist only of white space. -/
theorem TrimSpace_eq_empty_iff (text : String) :
    TrimSpace text = "" ↔ ∀ c ∈ text.data, isSpace c = true := by
  constructor
  · intro h c hc
    by_contra hn
    have hn' : isSpace c = false := by simpa using hn
    obtain ⟨x, hx, hpx⟩ := exists_mem_dropWhile isSpace text.data ⟨c, hc, hn'⟩
    obtain ⟨y, hy, hpy⟩ := exists_mem_dropWhile isSpace (text.data.dropWhile isSpace).reverse
      ⟨x, List.mem_reverse.mpr hx, hpx⟩
    have h2 : ((text.data.dropWhile isSpace).reverse.dropWhile isSpace).reverse = [] := by
      have := congrArg String.data h
      exact this
    have h3 : ((text.data.dropWhile isSpace).reverse.dropWhile isSpace) = [] := by
      simpa using h2
    rw [h3] at hy
    cases hy
  · intro h
    have h1 : text.data.dropWhile isSpace = [] := List.dropWhile_eq_nil_iff.mpr h
    unfold TrimSpace
    rw [h1]
    rfl

/-! ## Element-close events -/

theorem endElement_not_close (env : Env) (s : State) (name : Name)
    (h : env.toLower name.Local ≠ atomEntry ∧ env.toLower name.Local ≠ rssItem) :
    endElement env s name = s := by
  unfold endElement
  have : ¬ (env.toLower name.Local = atomEntry ∨ env.toLower name.Local = rssItem) := by
    rintro (hh | hh)
    · exact h.1 hh
    · exact h.2 hh
  simp only [this, if_false]

/-- A run of element-close events does not panic and keeps the pointer `item` and
every field of the current item other than `Id`. -/
theorem run_ends (env : Env) (mid : List Name) (s : State) :
    ∃ s1, run env s (mid.map Token.EndElement) = some s1 ∧ s1.item = s.item ∧
      s1.cur = { s.cur with Id := s1.cur.Id } := by
  induction mid generalizing s with
  | nil => exact ⟨s, rfl, rfl, rfl⟩
  | cons n ns ih =>
      obtain ⟨s1, h1, h2, h3⟩ := ih (endElement env s n)
      refine ⟨s1, ?_, h2.trans (endElement_frame env s n).item, ?_⟩
      · simp only [List.map_cons, run, step]
        exact h1
      · rw [h3, endElement_cur]
        split <;> rfl

/-! ## The media list -/

theorem MediaExt_refl (m : List Media) : MediaExt m m :=
  ⟨Or.inl rfl, fun _ _ => ⟨rfl, fun _ => rfl⟩⟩

theorem MediaExt_append (m : List Media) (x : Media) : MediaExt m (m ++ [x]) := by
  refine ⟨Or.inr (by simp), fun i hi => ?_⟩
  have : (m ++ [x]).getD i default = m.getD i default := by
    rw [List.getD_eq_getElem?_getD, List.getD_eq_getElem?_getD, List.getElem?_append_left hi]
  rw [this]
  exact ⟨rfl, fun _ => rfl⟩

theorem setLastSize_append (m : List Media) (x : Media) (v : String) :
    setLastSize (m ++ [x]) v = some (m ++ [{ x with Size := v }]) := by
  unfold setLastSize
  have h1 : ¬ (m ++ [x]).length = 0 := by simp
  have h2 : (m ++ [x]).length - 1 = m.length := by simp
  rw [if_neg h1, h2]
  have h3 : (m ++ [x]).getD m.length default = x := by
    rw [List.getD_eq_getElem?_getD, List.getElem?_append_right (Nat.le_refl _)]
    simp
  rw [h3]
  congr 1
  simp

theorem MediaExt_setLast (m m' : List Media) (v : String) (h : setLastSize m v = some m') :
    MediaExt m m' := by
  unfold setLastSize at h
  split at h
  · cases h
  · rename_i hne
    simp only [Option.some.injEq] at h
    subst h
    refine ⟨Or.inl (by simp), fun i hi => ?_⟩
    by_cases hi2 : i = m.length - 1
    · subst hi2
      have hlt : m.length - 1 < m.length := by omega
      have : (m.set (m.length - 1) { m.getD (m.length - 1) default with Size := v }).getD
          (m.length - 1) default = { m.getD (m.length - 1) default with Size := v } := by
        simp only [List.getD_eq_getElem?_getD, List.getElem?_set_self hlt, Option.getD_some]
      rw [this]
      exact ⟨rfl, fun h2 => by omega⟩
    · have : (m.set (m.length - 1) { m.getD (m.length - 1) default with Size := v }).getD
          i default = m.getD i default := by
        simp only [List.getD_eq_getElem?_getD, List.getElem?_set_ne (Ne.symm hi2)]
      rw [this]
      exact ⟨rfl, fun _ => rfl⟩

/-- The value of `ok` is true exactly when some attribute with lower-cased local
name "type" has a lower-cased value that starts with "video". -/
theorem contentOk_iff (env : Env) (attrs : List Attr) :
    contentOk env attrs = true ↔
      ∃ a ∈ attrs, env.toLower a.Name.Local = "type" ∧
        HasPrefix (env.toLower a.Value) "video" = true := by
  unfold contentOk
  simp only [List.any_eq_true, Bool.and_eq_true, beq_iff_eq]

/-- An element-open event of a media-namespace "content" element is handled by
`contentCase`. -/
theorem step_content (env : Env) (s : State) (e : StartElement)
    (hns : env.toLower e.Name.Space = mediaNs) (htag : env.toLower e.Name.Local = "content") :
    step env s (.StartElement e) = contentCase env (s.enter env e) e.Attr := by
  have e1 : ¬ "content" = atomFeed := by decide
  have e2 : ¬ "content" = rssChannel := by decide
  have e3 : ¬ "content" = rssItem := by decide
  have e4 : ¬ "content" = atomEntry := by decide
  have e5 : ¬ "content" = "enclosure" := by decide
  have e6 : ¬ "content" = atomLink := by decide
  simp only [step, startElement, enter_tag, enter_atom, enter_ns, hns, htag, e1, e2, e3, e4,
    e5, e6, if_false, if_true, and_false, or_self, and_self]

/-- The media list after the case of the "content" element. -/
theorem contentCase_Media (env : Env) (s s' : State) (attrs : List Attr)
    (h : contentCase env s attrs = some s') : MediaExt s.cur.Media s'.cur.Media := by
  unfold contentCase at h
  split_ifs at h
  · cases h; exact MediaExt_refl _
  · unfold contentSize at h
    split at h
    · rename_i f hf
      split at h
      · rename_i m hm
        cases h
        rw [cur_setCur]
        show MediaExt s.cur.Media m
        rw [contentUrl_cur] at hm
        split at hm
        · rename_i a ha
          have hm2 : setLastSize (s.cur.Media ++ [{ Url := a.Value }]) f.Value = some m := hm
          rw [setLastSize_append] at hm2
          cases hm2
          exact MediaExt_append _ _
        · exact MediaExt_setLast _ _ _ hm
      · cases h
    · cases h
      rw [contentUrl_cur]
      split
      · exact MediaExt_append _ _
      · exact MediaExt_refl _
  · cases h; exact MediaExt_refl _

/-! ## Thumbnails -/

/-- An element-open event of a media-namespace "thumbnail" element is handled by
`thumbnailCase`. -/
theorem step_thumbnail (env : Env) (s : State) (e : StartElement)
    (h : isThumbnailEvent env (.StartElement e) = true) :
    step env s (.StartElement e) = some (thumbnailCase env (s.enter env e) e.Attr) := by
  have h' : env.toLower e.Name.Space = mediaNs ∧ env.toLower e.Name.Local = mediaThumbnail := by
    simpa [isThumbnailEvent] using h
  have e1 : ¬ mediaThumbnail = atomFeed := by decide
  have e2 : ¬ mediaThumbnail = rssChannel := by decide
  have e3 : ¬ mediaThumbnail = rssItem := by decide
  have e4 : ¬ mediaThumbnail = atomEntry := by decide
  have e5 : ¬ mediaThumbnail = "enclosure" := by decide
  have e6 : ¬ mediaThumbnail = atomLink := by decide
  have e7 : ¬ mediaThumbnail = "content" := by decide
  simp only [step, startElement, enter_tag, enter_atom, enter_ns, h'.1, h'.2, e1, e2, e3, e4,
    e5, e6, e7, if_false, if_true, and_false, or_self, and_self]

/-- The thumbnail case applies the priority rule `thumbPick` to the pair
`(Image, ImageSource)` of the current item and the pair read from the attributes. -/
theorem step_thumbnail_pick (env : Env) (s : State) (e : StartElement)
    (h : isThumbnailEvent env (.StartElement e) = true) :
    ∃ s1, step env s (.StartElement e) = some s1 ∧ s1.item = s.item ∧
      (s1.cur.Image, s1.cur.ImageSource) =
        thumbPick (s.cur.Image, s.cur.ImageSource) (thumbOf env e.Attr) := by
  refine ⟨_, step_thumbnail env s e h, (thumbnailCase_frame env _ _).item, ?_⟩
  have hcur : (s.enter env e).cur = s.cur := cur_congr rfl rfl
  rw [thumbnailCase_cur, hcur]
  unfold thumbPick thumbOf thumbAccept
  split <;> rfl

theorem rank_le_three (n : String) : rank n ≤ 3 := by
  unfold rank
  split_ifs <;> omega

theorem rank_le_two (n : String) (h : n ≠ "sddefault") : rank n ≤ 2 := by
  unfold rank
  rw [if_neg h]
  split_ifs <;> omega

theorem rank_le_one (n : String) (h1 : n ≠ "sddefault") (h2 : n ≠ "hqdefault") :
    rank n ≤ 1 := by
  unfold rank
  rw [if_neg h1, if_neg h2]
  split_ifs <;> omega

theorem rank_eq_zero (n : String) (h1 : n ≠ "sddefault") (h2 : n ≠ "hqdefault")
    (h3 : n ≠ "mqdefault") : rank n = 0 := by
  unfold rank
  rw [if_neg h1, if_neg h2, if_neg h3]

/-- The priority rule never lowers the rank of the source of a non-empty image
and never empties the image. -/
theorem thumbPick_rank (cur cand : String × String) (h : cur.1 ≠ "") :
    rank cur.2 ≤ rank (thumbPick cur cand).2 ∧ (thumbPick cur cand).1 ≠ "" := by
  unfold thumbPick
  split
  · rename_i hc
    refine ⟨?_, hc.1⟩
    rcases hc.2 with h0 | h1 | h2 | h3 | h4
    · exact absurd h0 h
    · rw [h1]
      exact rank_le_three _
    · rw [h2.1]
      exact rank_le_two _ h2.2
    · rw [h3.1]
      exact rank_le_one _ h3.2.1 h3.2.2
    · rw [rank_eq_zero _ h4.2.2.1 h4.2.2.2 h4.2.1]
      exact Nat.zero_le _
  · exact ⟨Nat.le_refl _, h⟩

/-- A thumbnail event does not panic; it keeps the pointer `item`, and once the
image is non-empty it keeps it non-empty and does not lower the rank of its
source. -/
theorem step_thumbnail_rank (env : Env) (s : State) (t : Token)
    (ht : isThumbnailEvent env t = true) (h : s.cur.Image ≠ "") :
    ∃ s1, step env s t = some s1 ∧ s1.item = s.item ∧
      rank s.cur.ImageSource ≤ rank s1.cur.ImageSource ∧ s1.cur.Image ≠ "" := by
  cases t with
  | StartElement e =>
      obtain ⟨s1, k1, k2, k3⟩ := step_thumbnail_pick env s e ht
      have hp := thumbPick_rank (s.cur.Image, s.cur.ImageSource) (thumbOf env e.Attr) h
      rw [← k3] at hp
      exact ⟨s1, k1, k2, hp.1, hp.2⟩
  | EndElement n =>
      have hn : env.toLower n.Local = mediaThumbnail := by simpa [isThumbnailEvent] using ht
      have hs : endElement env s n = s := by
        apply endElement_not_close
        rw [hn]
        exact ⟨by decide, by decide⟩
      refine ⟨s, ?_, rfl, Nat.le_refl _, h⟩
      simp only [step, hs]
  | CharData text => simp [isThumbnailEvent] at ht
  | Other => simp [isThumbnailEvent] at ht

theorem run_thumbnail_rank (env : Env) (ts : List Token) (s : State)
    (ht : ∀ t ∈ ts, isThumbnailEvent env t = true) (h : s.cur.Image ≠ "") :
    ∃ s', run env s ts = some s' ∧ s'.item = s.item ∧
      rank s.cur.ImageSource ≤ rank s'.cur.ImageSource ∧ s'.cur.Image ≠ "" := by
  induction ts generalizing s with
  | nil => exact ⟨s, rfl, rfl, Nat.le_refl _, h⟩
  | cons t ts ih =>
      obtain ⟨s1, k1, k2, k3, k4⟩ := step_thumbnail_rank env s t (ht t (List.mem_cons_self _ _)) h
      obtain ⟨s2, m1, m2, m3, m4⟩ := ih s1 (fun u hu => ht u (List.mem_cons_of_mem _ hu)) k4
      refine ⟨s2, ?_, m2.trans k2, Nat.le_trans k3 m3, m4⟩
      simp only [run, k1, m1]

/-- Two thumbnail elements on the same item, with only element-close events
between them: the priority rule is applied twice. -/
theorem run_two_thumbnails (env : Env) (s : State) (e1 e2 : StartElement) (mid : List Name)
    (h1 : isThumbnailEvent env (.StartElement e1) = true)
    (h2 : isThumbnailEvent env (.StartElement e2) = true) :
    ∃ s', run env s (.StartElement e1 :: (mid.map Token.EndElement ++ [.StartElement e2])) =
        some s' ∧ s'.item = s.item ∧
      (s'.cur.Image, s'.cur.ImageSource) =
        thumbPick (thumbPick (s.cur.Image, s.cur.ImageSource) (thumbOf env e1.Attr))
          (thumbOf env e2.Attr) := by
  obtain ⟨s1, k1, k2, k3⟩ := step_thumbnail_pick env s e1 h1
  obtain ⟨s2, m1, m2, m3⟩ := run_ends env mid s1
  obtain ⟨s3, n1, n2, n3⟩ := step_thumbnail_pick env s2 e2 h2
  refine ⟨s3, ?_, (n2.trans m2).trans k2, ?_⟩
  · simp only [run, k1]
    rw [run_append, m1]
    simp only [Option.bind, run, n1]
  · have hm : (s2.cur.Image, s2.cur.ImageSource) = (s1.cur.Image, s1.cur.ImageSource) := by
      rw [m3]
    rw [n3, hm, k3]

/-- C15: an element-open event named "item" in the RSS dialect, or "entry" in
the Atom dialect, does not panic and leads to `levelPost` with `linkOk` false
and a current item that is brand new: `item` points to a cell that did not exist
before (so it is not the previous item), every text field and the media list of
the cell are empty and `When` is the reading of the clock.  The feed is as
before and every cell that existed before, the previous item and the items
already appended included, is as before, so nothing leaks from the previous
item into the new one or is lost from it; when the pointers of `Feed.Items`
are valid, the new item is none of them and the items of the feed are the same. -/
theorem open_allocates_new_item (env : Env) (s : State) (t : Token)
    (h : isItemOpen env s t = true) :
    ∃ s', step env s t = some s' ∧ s'.level = levelPost ∧ s'.linkOk = false ∧
      s'.cur = { Id := "", Title := "", Description := "", Link := "", Image := "",
                 ImageSource := "", When := env.now s.clock, Enclosure := "", Media := [] } ∧
      s'.feed = s.feed ∧
      s'.atom = s.atom ∧
      s'.item = s.heap.length ∧ s'.item ≠ s.item ∧
      s'.heap = s.heap ++ [s'.cur] ∧
      (∀ p, p < s.heap.length → deref s'.heap p = deref s.heap p) ∧
      ((∀ q ∈ s.feed.Items, q < s.heap.length) →
        s'.item ∉ s'.feed.Items ∧
        s'.feed.Items.map (deref s'.heap) = s.feed.Items.map (deref s.heap)) := by
  obtain ⟨e, rfl, he⟩ := step_open env s _ h
  have hcur : ((s.enter env e).alloc env).cur = newItem env s.clock := by
    show (s.heap ++ [newItem env s.clock]).getD s.heap.length default = _
    rw [getD_append_length]
  have hold : ∀ p, p < s.heap.length →
      deref ((s.enter env e).alloc env).heap p = deref s.heap p :=
    fun p hp => getD_append_left _ _ _ hp
  refine ⟨_, he, rfl, rfl, ?_, rfl, rfl, rfl, ?_, ?_, hold, ?_⟩
  · rw [hcur]; rfl
  · show s.heap.length ≠ s.item
    exact Nat.ne_of_gt s.valid
  · rw [hcur]; rfl
  · intro hv
    refine ⟨?_, ?_⟩
    · intro hmem
      have : s.heap.length < s.heap.length := hv _ hmem
      exact Nat.lt_irrefl _ this
    · show s.feed.Items.map (deref ((s.enter env e).alloc env).heap) = _
      apply List.map_congr_left
      intro q hq
      exact hold q (hv q hq)

theorem open_allocates_new_item_witness :
    (∃ s s', run testEnv initState (docRssTwoItems.take 8) = some s ∧
      s.feed.Items = [1] ∧ s.item = 1 ∧
      ((deref s.heap 1).Id, (deref s.heap 1).Link) = ("a", "a") ∧
      step testEnv s (startTok "" "item" []) = some s' ∧
      s'.cur = { Id := "", Title := "", Description := "", Link := "", Image := "",
                 ImageSource := "", When := testEnv.now s.clock, Enclosure := "", Media := [] } ∧
      s'.item = 2 ∧ s'.feed.Items = [1] ∧
      ((deref s'.heap 1).Id, (deref s'.heap 1).Link) = ("a", "a")) :=
  match hs : run testEnv initState (docRssTwoItems.take 8) with
  | some s =>
      have hfacts : (s.atom, s.feed.Items, s.item, s.heap.length,
          (deref s.heap 1).Id, (deref s.heap 1).Link) = (false, [1], 1, 2, "a", "a") := by
        have : (run testEnv initState (docRssTwoItems.take 8)).map
            (fun s => (s.atom, s.feed.Items, s.item, s.heap.length,
              (deref s.heap 1).Id, (deref s.heap 1).Link)) =
            some (false, [1], 1, 2, "a", "a") := by
          decide
        rw [hs] at this
        exact Option.some.inj this
      have hatom : s.atom = false := congrArg (fun x => x.1) hfacts
      have hitems : s.feed.Items = [1] := congrArg (fun x => x.2.1) hfacts
      have hitem : s.item = 1 := congrArg (fun x => x.2.2.1) hfacts
      have hlen : s.heap.length = 2 := congrArg (fun x => x.2.2.2.1) hfacts
      have hid : (deref s.heap 1).Id = "a" := congrArg (fun x => x.2.2.2.2.1) hfacts
      have hlink : (deref s.heap 1).Link = "a" := congrArg (fun x => x.2.2.2.2.2) hfacts
      match open_allocates_new_item testEnv s (startTok "" "item" [])
          (by simp only [isItemOpen, startTok, hatom]; decide) with
      | ⟨s', k1, _, _, k4, k5, _, k7, _, _, k10, _⟩ =>
          ⟨s, s', rfl, hitems, hitem, by rw [hid, hlink], k1, k4, by rw [k7, hlen],
            by rw [k5, hitems],
            by rw [k10 1 (by rw [hlen]; decide), hid, hlink]⟩
  | none => absurd hs (by decide)

/-- C19: a character-data event whose text is empty or consists only of white
space leaves the whole state as it is. -/
theorem blank_text_is_ignored (env : Env) (s : State) (text : String)
    (h : ∀ c ∈ text.data, isSpace c = true) :
    step env s (.CharData text) = some s := by
  have hb : TrimSpace text = "" := (TrimSpace_eq_empty_iff text).mpr h
  simp only [step, charData, hb, if_true]

theorem blank_text_is_ignored_witness :
    step testEnv { initState with tag := "title", level := levelPost } (.CharData " \n\t ") =
      some { initState with tag := "title", level := levelPost } :=
  blank_text_is_ignored testEnv _ " \n\t " (by decide)

/-- C20: an element-close event does not panic and leaves the dialect, the
level, the current tag, the current namespace and `linkOk` as they are; when its
lower-cased local name is neither "entry" nor "item" it leaves the whole state,
the feed and the current item included, as it is. -/
theorem close_keeps_context (env : Env) (s : State) (name : Name) :
    ∃ s', step env s (.EndElement name) = some s' ∧
      s'.atom = s.atom ∧ s'.level = s.level ∧ s'.tag = s.tag ∧ s'.ns = s.ns ∧
      s'.linkOk = s.linkOk ∧
      (env.toLower name.Local ≠ "entry" ∧ env.toLower name.Local ≠ "item" → s' = s) := by
  refine ⟨endElement env s name, rfl, ?_, ?_, ?_, ?_, ?_, endElement_not_close env s name⟩
  all_goals
    unfold endElement
    simp only []
    split_ifs <;> rfl

theorem close_keeps_context_witness :
    (∃ s', step testEnv { initState with tag := "title", level := levelPost, linkOk := true }
        (endTok "" "title") = some s' ∧
      s' = { initState with tag := "title", level := levelPost, linkOk := true }) :=
  match close_keeps_context testEnv
      { initState with tag := "title", level := levelPost, linkOk := true }
      { Space := "", Local := "title" } with
  | ⟨s', h1, _, _, _, _, _, h7⟩ => ⟨s', h1, h7 (by decide)⟩

/-- Function `parseTime`: the parsed time when the parse succeeds and the text is
not empty, the reading of the clock in every other case. -/
theorem parseTime_spec (env : Env) (clock : Nat) (f v : String) :
    (∀ t, env.parse f v = some t → v ≠ "" → (parseTime env clock f v).1 = t) ∧
    (env.parse f v = none ∨ v = "" → (parseTime env clock f v).1 = env.now clock) := by
  unfold parseTime
  refine ⟨?_, ?_⟩
  · intro t ht hv
    rw [ht]
    simp only [hv, if_false]
  · intro h
    cases hp : env.parse f v with
    | none => rfl
    | some t =>
        rcases h with h | h
        · rw [hp] at h; cases h
        · simp only [h, if_true]

/-- C18: at `levelPost`, a non-whitespace character-data event with text `v` does
not panic; in the Atom dialect with current tag "updated" it sets `When` to
`parseTime(L, v)` with the Zulu layout when the upper-cased `v` ends in "Z" and
the numeric-offset layout otherwise; in the RSS dialect with current tag
"pubdate" the layout is the named-zone one when the upper-cased `v` ends in "T"
and the numeric-offset one otherwise; and `parseTime(L, v)` is the parsed time
when the parse succeeds and `v` is not empty, the reading of the clock in every
other case. -/
theorem date_text_sets_When (env : Env) (s : State) (v : String)
    (hlev : s.level = levelPost) (hv : ∃ c ∈ v.data, isSpace c = false) :
    (s.atom = true → s.tag = "updated" →
      ∃ s', step env s (.CharData v) = some s' ∧
        s'.cur.When = (parseTime env s.clock
          (if HasSuffix (env.toUpper v) "Z" = true then "2006-01-02T15:04:05Z"
           else "2006-01-02T15:04:05-07:00") v).1) ∧
    (s.atom = false → s.tag = "pubdate" →
      ∃ s', step env s (.CharData v) = some s' ∧
        s'.cur.When = (parseTime env s.clock
          (if HasSuffix (env.toUpper v) "T" = true then "Mon, 2 Jan 2006 15:04:05 MST"
           else "Mon, 2 Jan 2006 15:04:05 -0700") v).1) ∧
    (∀ L c, (∀ t, env.parse L v = some t → v ≠ "" → (parseTime env c L v).1 = t) ∧
      (env.parse L v = none ∨ v = "" → (parseTime env c L v).1 = env.now c)) := by
  have hb : ¬ TrimSpace v = "" := by
    intro h
    obtain ⟨c, hc, hpc⟩ := hv
    have := (TrimSpace_eq_empty_iff v).mp h c hc
    rw [hpc] at this
    cases this
  refine ⟨?_, ?_, fun L c => parseTime_spec env c L v⟩
  · intro hatom htag
    refine ⟨updatedCase env s v, ?_, ?_⟩
    · have htag' : s.tag = atomUpdated := htag
      have e0 : ¬ levelPost = levelFeed := by decide
      have e1 : ¬ atomUpdated = atomId := by decide
      have e2 : ¬ atomUpdated = feedTitle := by decide
      have e3 : ¬ atomUpdated = atomSummary := by decide
      simp only [step, charData, postText, hb, hlev, hatom, htag', e0, e1, e2, e3,
        if_false, if_true, and_false, false_and, or_self, and_self, Bool.true_eq_false]
    · rw [updatedCase_cur]
      rfl
  · intro hatom htag
    refine ⟨pubDateCase env s v, ?_, ?_⟩
    · have htag' : s.tag = rssPubDate := htag
      have e0 : ¬ levelPost = levelFeed := by decide
      have e1 : ¬ rssPubDate = rssId := by decide
      have e2 : ¬ rssPubDate = feedTitle := by decide
      have e3 : ¬ rssPubDate = rssDescription := by decide
      have e4 : ¬ rssPubDate = rssLink := by decide
      simp only [step, charData, postText, hb, hlev, hatom, htag', e0, e1, e2, e3, e4,
        if_false, if_true, and_false, false_and, or_self, and_self, Bool.false_eq_true]
    · rw [pubDateCase_cur]
      rfl

theorem date_text_sets_When_witness :
    (∃ s', step testEnv { initState with atom := true, tag := "updated", level := levelPost }
        (.CharData "2006-01-02T15:04:05Z") = some s' ∧
      s'.cur.When = ⟨63271811045000000000⟩) ∧
    (∃ s', step testEnv { initState with tag := "pubdate", level := levelPost }
        (.CharData "yesterday") = some s' ∧
      s'.cur.When = testEnv.now 0) :=
  have h1 := (date_text_sets_When testEnv
      { initState with atom := true, tag := "updated", level := levelPost }
      "2006-01-02T15:04:05Z" rfl ⟨'2', by decide, by decide⟩).1 rfl rfl
  have h2 := (date_text_sets_When testEnv
      { initState with tag := "pubdate", level := levelPost }
      "yesterday" rfl ⟨'y', by decide, by decide⟩).2.1 rfl rfl
  ⟨match h1 with
    | ⟨s', k1, k2⟩ => ⟨s', k1, by rw [k2]; decide⟩,
   match h2 with
    | ⟨s', k1, k2⟩ => ⟨s', k1, by rw [k2]; decide⟩⟩

/-- C16: an element-open event of a media-namespace "content" element changes
only the tracked tag, namespace and open element, and neither the feed nor the
current item, unless the level is `levelPost` and some attribute with
lower-cased local name "type" has a lower-cased value that starts with "video";
in that case, when `a` is its first attribute with lower-cased local name
"url", the event does not panic and appends exactly one media entry, with the
url of `a` (and with the value of the first "filesize" attribute as its size,
empty when there is none), to the media list of the current item, whose other
fields and the feed stay as they are. -/
theorem content_only_video_at_post (env : Env) (s : State) (e : StartElement)
    (hns : env.toLower e.Name.Space = mediaNs) (htag : env.toLower e.Name.Local = "content") :
    (¬ (s.level = levelPost ∧ ∃ a ∈ e.Attr, env.toLower a.Name.Local = "type" ∧
          HasPrefix (env.toLower a.Value) "video" = true) →
      step env s (.StartElement e) =
        some { s with ns := env.toLower e.Name.Space, tag := env.toLower e.Name.Local,
                      st := e }) ∧
    (s.level = levelPost →
      (∃ a ∈ e.Attr, env.toLower a.Name.Local = "type" ∧
          HasPrefix (env.toLower a.Value) "video" = true) →
      ∀ (pre post : List Attr) (a : Attr), e.Attr = pre ++ a :: post →
        (∀ b ∈ pre, env.toLower b.Name.Local ≠ "url") → env.toLower a.Name.Local = "url" →
        ∃ s', step env s (.StartElement e) = some s' ∧ s'.feed = s.feed ∧ s'.item = s.item ∧
          s'.cur = { s.cur with Media := s.cur.Media ++
            [{ Url := a.Value,
               Size := ((e.Attr.find? (fun b => env.toLower b.Name.Local == "filesize")).map
                          Attr.Value).getD "" }] }) := by
  rw [step_content env s e hns htag]
  refine ⟨?_, ?_⟩
  · intro h
    unfold contentCase
    by_cases hl : s.level = levelPost
    · have hok : ¬ contentOk env e.Attr = true := by
        intro hc
        exact h ⟨hl, (contentOk_iff env e.Attr).mp hc⟩
      have hl' : ¬ (s.enter env e).level ≠ levelPost := fun hh => hh hl
      rw [if_neg hl', if_neg hok]
      rfl
    · have hl' : (s.enter env e).level ≠ levelPost := hl
      rw [if_pos hl']
      rfl
  · intro hl hok pre post a hattr hpre ha
    have hok' : contentOk env e.Attr = true := (contentOk_iff env e.Attr).mpr hok
    have hl' : ¬ (s.enter env e).level ≠ levelPost := fun hh => hh hl
    have hfind : e.Attr.find? (fun b => env.toLower b.Name.Local == "url") = some a := by
      rw [hattr]
      refine find?_first _ pre post a ?_ ?_
      · intro b hb
        exact beq_eq_false_iff_ne.mpr (hpre b hb)
      · exact beq_iff_eq.mpr ha
    have hcur0 : (s.enter env e).cur = s.cur := cur_congr rfl rfl
    have hurl : (contentUrl env (s.enter env e) e.Attr).cur =
        { s.cur with Media := s.cur.Media ++ [{ Url := a.Value }] } := by
      rw [contentUrl_cur, hfind, hcur0]
    unfold contentCase
    rw [if_neg hl', if_pos hok']
    unfold contentSize
    cases hsz : e.Attr.find? (fun b => env.toLower b.Name.Local == "filesize") with
    | none =>
        refine ⟨_, rfl, contentUrl_feed env _ _, (contentUrl_frame env _ _).item, ?_⟩
        rw [hurl]
        rfl
    | some f =>
        have hm : setLastSize (contentUrl env (s.enter env e) e.Attr).cur.Media f.Value =
            some (s.cur.Media ++ [{ Url := a.Value, Size := f.Value }]) := by
          rw [hurl]
          exact setLastSize_append _ _ _
        simp only [hm]
        refine ⟨_, rfl, contentUrl_feed env _ _, (contentUrl_frame env _ _).item, ?_⟩
        rw [cur_setCur, hurl]
        rfl

theorem content_only_video_at_post_witness :
    (step testEnv { initState with level := levelPost }
        (startTok mediaNs "content" [attr "type" "audio/mpeg", attr "url" "http://x/a.mp3"]) =
      some { initState with
        level := levelPost, ns := mediaNs, tag := "content",
        st := { Name := { Space := mediaNs, Local := "content" },
                Attr := [attr "type" "audio/mpeg", attr "url" "http://x/a.mp3"] } }) ∧
    (∃ s', step testEnv { initState with level := levelPost }
        (startTok mediaNs "content"
          [attr "type" "Video/mp4", attr "url" "http://x/v.mp4", attr "fileSize" "1024"]) =
        some s' ∧
      s'.cur.Media = [{ Url := "http://x/v.mp4", Size := "1024" }]) :=
  ⟨(content_only_video_at_post testEnv { initState with level := levelPost }
      { Name := { Space := mediaNs, Local := "content" },
        Attr := [attr "type" "audio/mpeg", attr "url" "http://x/a.mp3"] }
      (by decide) (by decide)).1 (by decide),
   match (content_only_video_at_post testEnv { initState with level := levelPost }
      { Name := { Space := mediaNs, Local := "content" },
        Attr := [attr "type" "Video/mp4", attr "url" "http://x/v.mp4",
                 attr "fileSize" "1024"] }
      (by decide) (by decide)).2 rfl (by decide)
      [attr "type" "Video/mp4"] [attr "fileSize" "1024"] (attr "url" "http://x/v.mp4")
      rfl (by decide) (by decide) with
   | ⟨s', k1, _, _, k4⟩ => ⟨s', k1, by rw [k4]; decide⟩⟩

/-- C17 (fails on the code): in `docEnclosureThenSize` the item has the media
entry of the enclosure, with an empty size, when the media-namespace "content"
element with a video type, a "filesize" attribute and no "url" attribute is
opened; the event creates no media entry and stores its filesize as the size of
the entry of the enclosure. -/
theorem filesize_written_to_older_entry :
    (run testEnv initState (docEnclosureThenSize.take 5)).map (fun s => s.cur.Media) =
      some [{ Url := "http://x/a.mp3", Size := "" }] ∧
    (run testEnv initState (docEnclosureThenSize.take 6)).map (fun s => s.cur.Media) =
      some [{ Url := "http://x/a.mp3", Size := "1024" }] ∧
    (NewFeed testEnv docEnclosureThenSize none).items.map FeedItem.Media =
      [[{ Url := "http://x/a.mp3", Size := "1024" }]] := by
  decide

theorem linkAttr_Media (env : Env) (s : State) (a : Attr) :
    (linkAttr env s a).cur.Media = s.cur.Media := by
  rw [linkAttr_cur]
  split <;> rfl

theorem linkLoop_Media (env : Env) (attrs : List Attr) (s : State) :
    (linkLoop env s attrs).cur.Media = s.cur.Media := by
  unfold linkLoop
  induction attrs generalizing s with
  | nil => rfl
  | cons a as ih => simp only [List.foldl_cons]; rw [ih, linkAttr_Media]

theorem linkCase_Media (env : Env) (s : State) (attrs : List Attr) :
    (linkCase env s attrs).cur.Media = s.cur.Media := by
  unfold linkCase; split
  · rfl
  · exact linkLoop_Media env attrs s

theorem enclosureCase_Media (env : Env) (s : State) (attrs : List Attr) :
    MediaExt s.cur.Media (enclosureCase env s attrs).cur.Media := by
  rw [enclosureCase_cur]
  split
  · exact MediaExt_append _ _
  · exact MediaExt_refl _

theorem startElement_Media (env : Env) (s s' : State) (t : StartElement)
    (ho : isItemOpen env s (.StartElement t) = false)
    (h : startElement env s t = some s') : MediaExt s.cur.Media s'.cur.Media := by
  have h1 : ¬ ((s.atom = false ∧ env.toLower t.Name.Local = rssItem) ∨
      (s.atom = true ∧ env.toLower t.Name.Local = atomEntry)) := by
    intro hc
    have : isItemOpen env s (.StartElement t) = true := by simpa [isItemOpen] using hc
    rw [ho] at this; cases this
  have hcur0 : (s.enter env t).cur = s.cur := cur_congr rfl rfl
  unfold startElement at h
  simp only [enter_tag, enter_atom, h1, if_false] at h
  split_ifs at h
  · cases h; exact MediaExt_refl _
  · cases h; exact MediaExt_refl _
  · cases h
    have := enclosureCase_Media env (s.enter env t) t.Attr
    rw [hcur0] at this
    exact this
  · cases h
    rw [linkCase_Media, hcur0]
    exact MediaExt_refl _
  · have := contentCase_Media env _ _ _ h
    rw [hcur0] at this
    exact this
  · cases h
    rw [thumbnailCase_cur]
    split
    · exact MediaExt_refl _
    · exact MediaExt_refl _
  · cases h; exact MediaExt_refl _

theorem endElement_Media (env : Env) (s : State) (name : Name) :
    (endElement env s name).cur.Media = s.cur.Media := by
  rw [endElement_cur]
  split <;> rfl

theorem postText_Media (env : Env) (s : State) (text : String) :
    (postText env s text).cur.Media = s.cur.Media := by
  unfold postText
  split_ifs
  · rw [cur_setCur]
  · rw [cur_setCur]
  · rw [cur_setCur]
  · rw [rssLinkCase_cur]; split <;> rfl
  · rw [updatedCase_cur]
  · rw [pubDateCase_cur]
  · rfl

theorem charData_Media (env : Env) (s : State) (text : String) :
    (charData env s text).cur.Media = s.cur.Media := by
  unfold charData
  split_ifs
  · rfl
  · rw [feedText_cur]
  · exact postText_Media env s text
  · rfl

/-- C14: every event that is not an element-open event that allocates a new item
and that is processed without a panic keeps the pointer `item` and leaves the
media list of the current item with the list before the event as a prefix up to
sizes: the length is the old one or one more, every earlier entry keeps its
`Url`, and every earlier entry except possibly the last of the old list keeps
its `Size`. -/
theorem media_only_appended (env : Env) (s s' : State) (t : Token)
    (ho : isItemOpen env s t = false) (h : step env s t = some s') :
    s'.item = s.item ∧
    (s'.cur.Media.length = s.cur.Media.length ∨
      s'.cur.Media.length = s.cur.Media.length + 1) ∧
    ∀ i, i < s.cur.Media.length →
      (s'.cur.Media.getD i default).Url = (s.cur.Media.getD i default).Url ∧
      (i + 1 < s.cur.Media.length →
        (s'.cur.Media.getD i default).Size = (s.cur.Media.getD i default).Size) := by
  refine ⟨(step_frame env s s' t ho h).item, ?_⟩
  have hm : MediaExt s.cur.Media s'.cur.Media := by
    cases t with
    | StartElement e => exact startElement_Media env s s' e ho h
    | EndElement n =>
        simp only [step, Option.some.injEq] at h; subst h
        rw [endElement_Media]; exact MediaExt_refl _
    | CharData text =>
        simp only [step, Option.some.injEq] at h; subst h
        rw [charData_Media]; exact MediaExt_refl _
    | Other =>
        simp only [step, Option.some.injEq] at h; subst h
        exact MediaExt_refl _
  exact hm

theorem media_only_appended_witness :
    (∃ s s', run testEnv initState (docEnclosureThenSize.take 5) = some s ∧
      step testEnv s (startTok mediaNs "content"
        [attr "type" "video/mp4", attr "fileSize" "1024"]) = some s' ∧
      s'.item = s.item ∧
      (s'.cur.Media.length = s.cur.Media.length ∨
        s'.cur.Media.length = s.cur.Media.length + 1) ∧
      ∀ i, i < s.cur.Media.length →
        (s'.cur.Media.getD i default).Url = (s.cur.Media.getD i default).Url ∧
        (i + 1 < s.cur.Media.length →
          (s'.cur.Media.getD i default).Size = (s.cur.Media.getD i default).Size)) :=
  match hs : run testEnv initState (docEnclosureThenSize.take 5),
        hs' : (run testEnv initState (docEnclosureThenSize.take 5)).bind
                (fun s => step testEnv s (startTok mediaNs "content"
                  [attr "type" "video/mp4", attr "fileSize" "1024"])) with
  | some s, some s' =>
      have h1 : step testEnv s (startTok mediaNs "content"
          [attr "type" "video/mp4", attr "fileSize" "1024"]) = some s' := by
        rw [hs] at hs'; exact hs'
      ⟨s, s', rfl, h1,
        media_only_appended testEnv s s' _ (isItemOpen_of_name testEnv s _ (by decide)) h1⟩
  | none, _ => absurd hs (by decide)
  | some _, none => absurd hs' (by decide)

/-! ## Enclosures over a run on one item -/

theorem find?_of_isFirstUrl (env : Env) (attrs : List Attr) (a : Attr)
    (h : isFirstUrl env attrs a) :
    attrs.find? (fun b => env.toLower b.Name.Local == "url") = some a := by
  obtain ⟨pre, post, hattr, hpre, ha⟩ := h
  rw [hattr]
  refine find?_first _ pre post a ?_ ?_
  · intro b hb
    exact beq_eq_false_iff_ne.mpr (hpre b hb)
  · exact beq_iff_eq.mpr ha

/-- An enclosure element with a first url attribute `a` sets `Enclosure` to the
value of `a`, whatever it was, and appends one media entry. -/
theorem step_enclosure_cur (env : Env) (s : State) (e : StartElement) (a : Attr)
    (htag : env.toLower e.Name.Local = "enclosure") (ha : isFirstUrl env e.Attr a) :
    ∃ s1, step env s (.StartElement e) = some s1 ∧ s1.item = s.item ∧
      s1.cur = { s.cur with Enclosure := a.Value,
                            Media := s.cur.Media ++ [{ Url := a.Value }] } := by
  refine ⟨_, step_enclosure env s e htag, (enclosureCase_frame env _ _).item, ?_⟩
  have hcur : (s.enter env e).cur = s.cur := cur_congr rfl rfl
  rw [enclosureCase_cur, find?_of_isFirstUrl env e.Attr a ha, hcur]

/-- Two enclosure elements with a url attribute are opened on
the same item, with only element-close events between them, the run does not
panic, `Enclosure` of the item is the url of the second (the later enclosure
overwrites it), and each of the two appends one media entry. -/
theorem enclosure_pair_last_url_wins (env : Env) (s : State) (e1 e2 : StartElement)
    (a1 a2 : Attr) (mid : List Name)
    (h1 : env.toLower e1.Name.Local = "enclosure") (h2 : env.toLower e2.Name.Local = "enclosure")
    (u1 : isFirstUrl env e1.Attr a1) (u2 : isFirstUrl env e2.Attr a2) :
    ∃ s', run env s (.StartElement e1 :: (mid.map Token.EndElement ++ [.StartElement e2])) =
        some s' ∧ s'.item = s.item ∧
      s'.cur.Enclosure = a2.Value ∧
      s'.cur.Media = s.cur.Media ++ [{ Url := a1.Value }, { Url := a2.Value }] := by
  obtain ⟨s1, k1, k2, k3⟩ := step_enclosure_cur env s e1 a1 h1 u1
  obtain ⟨s2, m1, m2, m3⟩ := run_ends env mid s1
  obtain ⟨s3, n1, n2, n3⟩ := step_enclosure_cur env s2 e2 a2 h2 u2
  refine ⟨s3, ?_, (n2.trans m2).trans k2, ?_, ?_⟩
  · simp only [run, k1]
    rw [run_append, m1]
    simp only [Option.bind, run, n1]
  · rw [n3]
  · rw [n3, m3, k3]
    simp

theorem thumbPick_sd (cur : String × String) (u : String) (hu : u ≠ "") :
    thumbPick cur (u, "sddefault") = (u, "sddefault") := by
  unfold thumbPick
  rw [if_pos ⟨hu, Or.inr (Or.inl rfl)⟩]

theorem thumbPick_hq_after_sd (u1 u2 : String) (h1 : u1 ≠ "") :
    thumbPick (u1, "sddefault") (u2, "hqdefault") = (u1, "sddefault") := by
  unfold thumbPick
  have e1 : ¬ ("hqdefault" : String) = "sddefault" := by decide
  have e2 : ¬ ("hqdefault" : String) = "mqdefault" := by decide
  have e3 : ¬ ("hqdefault" : String) = "default " := by decide
  simp only [h1, e1, e2, e3, ne_eq, not_true_eq_false, and_false, false_and, or_self, if_false]

theorem thumbPick_same_ranked (u1 u2 n : String) (hn : isRankedName n) (h2 : u2 ≠ "") :
    thumbPick (u1, n) (u2, n) = (u2, n) := by
  unfold thumbPick
  have e1 : ¬ ("hqdefault" : String) = "sddefault" := by decide
  have e2 : ¬ ("mqdefault" : String) = "sddefault" := by decide
  have e3 : ¬ ("mqdefault" : String) = "hqdefault" := by decide
  have e4 : ¬ ("default " : String) = "mqdefault" := by decide
  have e5 : ¬ ("default " : String) = "sddefault" := by decide
  have e6 : ¬ ("default " : String) = "hqdefault" := by decide
  have hc : u2 ≠ "" ∧ (u1 = "" ∨ n = "sddefault" ∨ (n = "hqdefault" ∧ n ≠ "sddefault") ∨
      (n = "mqdefault" ∧ n ≠ "sddefault" ∧ n ≠ "hqdefault") ∨
      (n = "default " ∧ n ≠ "mqdefault" ∧ n ≠ "sddefault" ∧ n ≠ "hqdefault")) := by
    refine ⟨h2, ?_⟩
    rcases hn with rfl | rfl | rfl | rfl
    · exact Or.inr (Or.inl rfl)
    · exact Or.inr (Or.inr (Or.inl ⟨rfl, e1⟩))
    · exact Or.inr (Or.inr (Or.inr (Or.inl ⟨rfl, e2, e3⟩)))
    · exact Or.inr (Or.inr (Or.inr (Or.inr ⟨rfl, e4, e5, e6⟩)))
  exact if_pos hc

theorem thumbPick_same_unranked (u1 u2 n : String) (hn : ¬ isRankedName n) (h1 : u1 ≠ "") :
    thumbPick (u1, n) (u2, n) = (u1, n) := by
  unfold thumbPick
  have hc : ¬ (u2 ≠ "" ∧ (u1 = "" ∨ n = "sddefault" ∨ (n = "hqdefault" ∧ n ≠ "sddefault") ∨
      (n = "mqdefault" ∧ n ≠ "sddefault" ∧ n ≠ "hqdefault") ∨
      (n = "default " ∧ n ≠ "mqdefault" ∧ n ≠ "sddefault" ∧ n ≠ "hqdefault"))) := by
    rintro ⟨_, h0 | h | h | h | h⟩
    · exact h1 h0
    · exact hn (Or.inl h)
    · exact hn (Or.inr (Or.inl h.1))
    · exact hn (Or.inr (Or.inr (Or.inl h.1)))
    · exact hn (Or.inr (Or.inr (Or.inr h.1)))
  exact if_neg hc

theorem thumbPick_accepted (it : FeedItem) (u n : String) (h : thumbAccept it u n) :
    thumbPick (it.Image, it.ImageSource) (u, n) = (u, n) := by
  unfold thumbPick
  exact if_pos h

/-- C12: for every sequence of thumbnail events on one item, the run does not
panic and, once the image of the item is non-empty, it stays non-empty and the
rank of its source does not decrease.  So a thumbnail named "mqdefault" then one
named "sddefault", with non-empty urls, leave the image and the source of the
second; and one named "sddefault" then one named "hqdefault" leave the image and
the source of the first. -/
theorem thumbnail_rank_never_decreases (env : Env) :
    (∀ (ts : List Token) (s : State),
      (∀ t ∈ ts, isThumbnailEvent env t = true) → s.cur.Image ≠ "" →
      ∃ s', run env s ts = some s' ∧ s'.item = s.item ∧
        rank s.cur.ImageSource ≤ rank s'.cur.ImageSource ∧ s'.cur.Image ≠ "") ∧
    (∀ (s : State) (e1 e2 : StartElement) (mid : List Name) (u1 u2 : String),
      isThumbnailEvent env (.StartElement e1) = true →
      isThumbnailEvent env (.StartElement e2) = true →
      thumbOf env e1.Attr = (u1, "mqdefault") → thumbOf env e2.Attr = (u2, "sddefault") →
      u1 ≠ "" → u2 ≠ "" →
      ∃ s', run env s (.StartElement e1 :: (mid.map Token.EndElement ++ [.StartElement e2])) =
          some s' ∧ s'.item = s.item ∧
        s'.cur.ImageSource = "sddefault" ∧ s'.cur.Image = u2) ∧
    (∀ (s : State) (e1 e2 : StartElement) (mid : List Name) (u1 u2 : String),
      isThumbnailEvent env (.StartElement e1) = true →
      isThumbnailEvent env (.StartElement e2) = true →
      thumbOf env e1.Attr = (u1, "sddefault") → thumbOf env e2.Attr = (u2, "hqdefault") →
      u1 ≠ "" → u2 ≠ "" →
      ∃ s', run env s (.StartElement e1 :: (mid.map Token.EndElement ++ [.StartElement e2])) =
          some s' ∧ s'.item = s.item ∧
        s'.cur.ImageSource = "sddefault" ∧ s'.cur.Image = u1) := by
  refine ⟨fun ts s ht h => run_thumbnail_rank env ts s ht h, ?_, ?_⟩
  · intro s e1 e2 mid u1 u2 h1 h2 t1 t2 _ hu2
    obtain ⟨s', k1, k2, k3⟩ := run_two_thumbnails env s e1 e2 mid h1 h2
    rw [t1, t2, thumbPick_sd _ u2 hu2] at k3
    exact ⟨s', k1, k2, (congrArg Prod.snd k3), (congrArg Prod.fst k3)⟩
  · intro s e1 e2 mid u1 u2 h1 h2 t1 t2 hu1 _
    obtain ⟨s', k1, k2, k3⟩ := run_two_thumbnails env s e1 e2 mid h1 h2
    rw [t1, t2, thumbPick_sd _ u1 hu1, thumbPick_hq_after_sd u1 u2 hu1] at k3
    exact ⟨s', k1, k2, (congrArg Prod.snd k3), (congrArg Prod.fst k3)⟩

theorem thumbnail_rank_never_decreases_witness :
    (∃ s', run testEnv initState
        [thumbTok "http://x/1.jpg" "hqdefault", endTok mediaNs "thumbnail",
         thumbTok "http://x/2.jpg" "mqdefault", endTok mediaNs "thumbnail",
         thumbTok "http://x/3.jpg" "foo"] = some s' ∧
      s'.cur.Image = "http://x/1.jpg" ∧ s'.cur.ImageSource = "hqdefault") ∧
    (∃ s', run testEnv initState
        [thumbTok "http://x/1.jpg" "mqdefault", endTok mediaNs "thumbnail",
         thumbTok "http://x/2.jpg" "sddefault"] = some s' ∧ s'.item = initState.item ∧
      s'.cur.ImageSource = "sddefault" ∧ s'.cur.Image = "http://x/2.jpg") ∧
    (∃ s', run testEnv initState
        [thumbTok "http://x/1.jpg" "sddefault", endTok mediaNs "thumbnail",
         thumbTok "http://x/2.jpg" "hqdefault"] = some s' ∧ s'.item = initState.item ∧
      s'.cur.ImageSource = "sddefault" ∧ s'.cur.Image = "http://x/1.jpg") :=
  ⟨match hs : step testEnv initState (thumbTok "http://x/1.jpg" "hqdefault") with
    | some s1 =>
        have hImg : s1.cur.Image = "http://x/1.jpg" ∧ s1.cur.ImageSource = "hqdefault" := by
          have : (step testEnv initState (thumbTok "http://x/1.jpg" "hqdefault")).map
              (fun s => (s.cur.Image, s.cur.ImageSource)) =
              some ("http://x/1.jpg", "hqdefault") := by decide
          rw [hs] at this
          have h2 := Option.some.inj this
          exact ⟨congrArg Prod.fst h2, congrArg Prod.snd h2⟩
        match (thumbnail_rank_never_decreases testEnv).1
          [endTok mediaNs "thumbnail", thumbTok "http://x/2.jpg" "mqdefault",
           endTok mediaNs "thumbnail", thumbTok "http://x/3.jpg" "foo"] s1 (by decide)
          (by rw [hImg.1]; decide) with
        | ⟨s', k1, _, _, _⟩ =>
            have hfin : (run testEnv initState
                [thumbTok "http://x/1.jpg" "hqdefault", endTok mediaNs "thumbnail",
                 thumbTok "http://x/2.jpg" "mqdefault", endTok mediaNs "thumbnail",
                 thumbTok "http://x/3.jpg" "foo"]).map
                (fun s => (s.cur.Image, s.cur.ImageSource)) =
                some ("http://x/1.jpg", "hqdefault") := by decide
            have hrun : run testEnv initState
                [thumbTok "http://x/1.jpg" "hqdefault", endTok mediaNs "thumbnail",
                 thumbTok "http://x/2.jpg" "mqdefault", endTok mediaNs "thumbnail",
                 thumbTok "http://x/3.jpg" "foo"] = some s' := by
              simp only [run, hs]
              exact k1
            ⟨s', hrun, by
              rw [hrun] at hfin
              have h2 := Option.some.inj hfin
              exact ⟨congrArg Prod.fst h2, congrArg Prod.snd h2⟩⟩
    | none => absurd hs (by decide),
   (thumbnail_rank_never_decreases testEnv).2.1 initState
      { Name := { Space := mediaNs, Local := "thumbnail" },
        Attr := [attr "url" "http://x/1.jpg",
                 { Name := { Space := ytNs, Local := "name" }, Value := "mqdefault" }] }
      { Name := { Space := mediaNs, Local := "thumbnail" },
        Attr := [attr "url" "http://x/2.jpg",
                 { Name := { Space := ytNs, Local := "name" }, Value := "sddefault" }] }
      [{ Space := mediaNs, Local := "thumbnail" }] "http://x/1.jpg" "http://x/2.jpg"
      (by decide) (by decide) (by decide) (by decide) (by decide) (by decide),
   (thumbnail_rank_never_decreases testEnv).2.2 initState
      { Name := { Space := mediaNs, Local := "thumbnail" },
        Attr := [attr "url" "http://x/1.jpg",
                 { Name := { Space := ytNs, Local := "name" }, Value := "sddefault" }] }
      { Name := { Space := mediaNs, Local := "thumbnail" },
        Attr := [attr "url" "http://x/2.jpg",
                 { Name := { Space := ytNs, Local := "name" }, Value := "hqdefault" }] }
      [{ Space := mediaNs, Local := "thumbnail" }] "http://x/1.jpg" "http://x/2.jpg"
      (by decide) (by decide) (by decide) (by decide) (by decide) (by decide)⟩

/-- C13 (fails as stated): in `docTwoSd` the entry holds two thumbnails named
"sddefault" with different non-empty urls; the first is accepted (after it the
image is `http://x/1.jpg`), and the image of the returned item is the url of the
second. -/
theorem same_name_last_wins_counterexample :
    (run testEnv initState (docTwoSd.take 3)).map (fun s => (s.cur.Image, s.cur.ImageSource)) =
      some ("http://x/1.jpg", "sddefault") ∧
    (NewFeed testEnv docTwoSd none).items.map (fun it => (it.Image, it.ImageSource)) =
      [("http://x/2.jpg", "sddefault")] := by
  decide

/-- C13 (amended): for two thumbnail events on the same item that carry the same
name and non-empty urls, with only element-close events between them and the
first one accepted, the run does not panic and the source of the image after
both is that name; when the name is "sddefault", "hqdefault", "mqdefault" or
"default " the image is the url of the second (the last seen wins), and for
every other name it is the url of the first. -/
theorem same_name_thumbnails (env : Env) (s : State) (e1 e2 : StartElement)
    (mid : List Name) (u1 u2 n : String)
    (h1 : isThumbnailEvent env (.StartElement e1) = true)
    (h2 : isThumbnailEvent env (.StartElement e2) = true)
    (t1 : thumbOf env e1.Attr = (u1, n)) (t2 : thumbOf env e2.Attr = (u2, n))
    (hu1 : u1 ≠ "") (hu2 : u2 ≠ "") (hacc : thumbAccept s.cur u1 n) :
    ∃ s', run env s (.StartElement e1 :: (mid.map Token.EndElement ++ [.StartElement e2])) =
        some s' ∧ s'.item = s.item ∧ s'.cur.ImageSource = n ∧
      (isRankedName n → s'.cur.Image = u2) ∧ (¬ isRankedName n → s'.cur.Image = u1) := by
  obtain ⟨s', k1, k2, k3⟩ := run_two_thumbnails env s e1 e2 mid h1 h2
  rw [t1, t2, thumbPick_accepted s.cur u1 n hacc] at k3
  refine ⟨s', k1, k2, ?_, ?_, ?_⟩
  · by_cases hn : isRankedName n
    · rw [thumbPick_same_ranked u1 u2 n hn hu2] at k3
      exact congrArg Prod.snd k3
    · rw [thumbPick_same_unranked u1 u2 n hn hu1] at k3
      exact congrArg Prod.snd k3
  · intro hn
    rw [thumbPick_same_ranked u1 u2 n hn hu2] at k3
    exact congrArg Prod.fst k3
  · intro hn
    rw [thumbPick_same_unranked u1 u2 n hn hu1] at k3
    exact congrArg Prod.fst k3

theorem same_name_thumbnails_witness :
    (∃ s', run testEnv initState
        [thumbTok "http://x/1.jpg" "hqdefault", endTok mediaNs "thumbnail",
         thumbTok "http://x/2.jpg" "hqdefault"] = some s' ∧ s'.item = initState.item ∧
      s'.cur.ImageSource = "hqdefault" ∧ s'.cur.Image = "http://x/2.jpg") ∧
    (∃ s', run testEnv initState
        [thumbTok "http://x/1.jpg" "default", endTok mediaNs "thumbnail",
         thumbTok "http://x/2.jpg" "default"] = some s' ∧ s'.item = initState.item ∧
      s'.cur.ImageSource = "default" ∧ s'.cur.Image = "http://x/1.jpg") :=
  ⟨match same_name_thumbnails testEnv initState
      { Name := { Space := mediaNs, Local := "thumbnail" },
        Attr := [attr "url" "http://x/1.jpg",
                 { Name := { Space := ytNs, Local := "name" }, Value := "hqdefault" }] }
      { Name := { Space := mediaNs, Local := "thumbnail" },
        Attr := [attr "url" "http://x/2.jpg",
                 { Name := { Space := ytNs, Local := "name" }, Value := "hqdefault" }] }
      [{ Space := mediaNs, Local := "thumbnail" }] "http://x/1.jpg" "http://x/2.jpg" "hqdefault"
      (by decide) (by decide) (by decide) (by decide) (by decide) (by decide) (by decide) with
    | ⟨s', k1, k2, k3, k4, _⟩ => ⟨s', k1, k2, k3, k4 (Or.inr (Or.inl rfl))⟩,
   match same_name_thumbnails testEnv initState
      { Name := { Space := mediaNs, Local := "thumbnail" },
        Attr := [attr "url" "http://x/1.jpg",
                 { Name := { Space := ytNs, Local := "name" }, Value := "default" }] }
      { Name := { Space := mediaNs, Local := "thumbnail" },
        Attr := [attr "url" "http://x/2.jpg",
                 { Name := { Space := ytNs, Local := "name" }, Value := "default" }] }
      [{ Space := mediaNs, Local := "thumbnail" }] "http://x/1.jpg" "http://x/2.jpg" "default"
      (by decide) (by decide) (by decide) (by decide) (by decide) (by decide) (by decide) with
    | ⟨s', k1, k2, k3, _, k5⟩ => ⟨s', k1, k2, k3, k5 (by unfold isRankedName; decide)⟩⟩

end Feedparser
